import Mathlib

/-!
# Verification of the FHIR Provider-Network Crawler & Relational Flattener

A shallow embedding of `Step70_SlurpPayerProviderNetworks.py`, the core of the
`plan_scrape` repository, together with theorems settling the specification
claims about it.

Modelling conventions:
* Python dicts read through `.get(key, default)` become Lean structures whose
  fields are `Option`-valued (a `none` models an absent key) or lists
  (a missing list key defaults to `[]` in the source, so we inline that).
* The network is an oracle: entity fetches are functions `String → Option X`
  (the result of one logical `fetch_fhir_resource` call for that URL), page
  fetches are `String → Option Bundle`.  `none` models a fetch that exhausted
  its retries (the Python function returns `None` then).
* The filesystem is a map from paths to CSV file contents; a CSV file is a
  list of rows, each row the list of its cell values in field order.
* `time.sleep` and `print` are observability; sleeps are recorded as ghost
  data by the retry model, fetch invocations are recorded in a ghost log.
-/

namespace PlanScrape

/-! ## String helpers

The source uses `str.split('/')[-1]`, `str.startswith`, `str.endswith` and
`urljoin`.  We model them on the character lists underlying `String` so that
everything reduces definitionally.
-/

/-- Models Python `s.split('/')[-1]`: the substring after the last `'/'`
(the whole string when there is no `'/'`, empty when `s` ends in `'/'`). -/
def lastSegAux : List Char → List Char → List Char
  | [], acc => acc
  | c :: cs, acc => if c = '/' then lastSegAux cs [] else lastSegAux cs (acc ++ [c])

/-- `org_ref.split('/')[-1]` from the source. -/
def lastSeg (s : String) : String := String.mk (lastSegAux s.data [])

/-- Models Python `s.startswith(pre)`. -/
def strStartsWith (s pre : String) : Bool := pre.data.isPrefixOf s.data

/-- Models Python `s.endswith(suf)`. -/
def strEndsWith (s suf : String) : Bool := suf.data.isSuffixOf s.data

/-- Models `urljoin(base, rel)` in the only configuration the source uses it:
`base` ends with `'/'` and `rel` is a relative path (`"Organization/123"`,
`"PractitionerRole?_count=100"`, ...), where `urljoin` is plain
concatenation. -/
def urljoin (base rel : String) : String := base ++ rel

/-- Models the base-URL normalization done both in `process_payer` and in
`fetch_all_practitioner_roles`:
`if not base_url.endswith('/'): base_url = base_url + '/'`. -/
def normalizeBase (s : String) : String :=
  if strEndsWith s "/" then s else s ++ "/"

/-- Python dict lookup on an insertion-ordered association list
(`id -> entity` maps of `process_payer`). -/
def dictLookup {α : Type} (k : String) : List (String × α) → Option α
  | [] => none
  | p :: rest => if p.1 = k then some p.2 else dictLookup k rest

/-! ## FHIR data structures

Each structure lists exactly the keys the source reads from the
corresponding JSON object. -/

/-- One entry of a `coding` list: the source reads `code`, `display`,
`system` (each through `.get`, so absent keys are `none`). -/
structure Coding where
  code : Option String
  display : Option String
  system : Option String
deriving DecidableEq

/-- A codeable concept: the source only reads its `coding` list
(`.get('coding', [])`). -/
structure CodeableConcept where
  coding : List Coding
deriving DecidableEq

/-- `identifier.get('type', {})` followed by `.get('coding', [])`, and
`identifier.get('value', '0')`. -/
structure Identifier where
  type : Option CodeableConcept
  value : Option String
deriving DecidableEq

/-- One entry of a `name` list: `name.get('family', '')`,
`name.get('given', [])`. -/
structure HumanName where
  family : Option String
  given : List String
deriving DecidableEq

/-- A Practitioner resource: the source reads `identifier` and `name`. -/
structure Practitioner where
  identifier : List Identifier
  name : List HumanName
deriving DecidableEq

/-- An address object: the source reads `line`, `city`, `state`,
`postalCode`. -/
structure Address where
  line : List String
  city : Option String
  state : Option String
  postalCode : Option String
deriving DecidableEq

/-- An Organization resource: the source reads `name`, `type` (a list of
codeable concepts) and `address` (a list of address objects). -/
structure Org where
  name : Option String
  type : List CodeableConcept
  address : List Address
deriving DecidableEq

/-- A Location resource: the source reads `name`, `status` and a single
(non-list) `address` object (`.get('address', {})`). -/
structure Loc where
  name : Option String
  status : Option String
  address : Option Address
deriving DecidableEq

/-- A reference-carrying object (`pr['organization']`, `pr['practitioner']`,
entries of `pr['location']`, `ext['valueReference']`): the source reads
`.get('reference', '')`. -/
structure RefObj where
  reference : Option String
deriving DecidableEq

/-- Models `obj.get(key, {}).get('reference', '')` for an optional
reference-carrying object. -/
def refString (o : Option RefObj) : String :=
  match o with
  | some r => r.reference.getD ""
  | none => ""

/-- One entry of `pr['extension']`: the source reads `url` and
`valueReference.reference`. -/
structure Extension where
  url : Option String
  valueReference : Option RefObj
deriving DecidableEq

/-- One entry of `pr['telecom']`: `system`, `value`, `use`, each defaulted
to `''`. -/
structure Telecom where
  system : Option String
  value : Option String
  use : Option String
deriving DecidableEq

/-- A PractitionerRole resource as consumed by the source: `resourceType`
(checked by the paginator), `id` (`.get('id', '')`), and the reference /
inline lists walked by `process_payer`. -/
structure PractitionerRole where
  resourceType : Option String
  id : Option String
  extension : List Extension
  organization : Option RefObj
  practitioner : Option RefObj
  location : List RefObj
  specialty : List CodeableConcept
  telecom : List Telecom
deriving DecidableEq

/-- One entry of a Bundle's `entry` list: `entry.get('resource', {})`;
an absent resource yields an empty dict, whose `resourceType` is absent,
so the paginator skips it — modelled as `none`. -/
structure BundleEntry where
  resource : Option PractitionerRole
deriving DecidableEq

/-- One entry of a Bundle's `link` list: `relation` and `url`. -/
structure Link where
  relation : Option String
  url : Option String
deriving DecidableEq

/-- A paginated Bundle envelope: `entry` and `link`
(each through `.get(_, [])`). -/
structure Bundle where
  entry : List BundleEntry
  link : List Link
deriving DecidableEq

/-! ## Field extractors (`extract_npi_from_practitioner`,
`extract_practitioner_name`, `extract_organization_info`,
`extract_location_info`) -/

/-- The inner double loop of `extract_npi_from_practitioner`: does any
coding of this identifier's type have `code == 'NPI'`? -/
def identifierHasNPI (i : Identifier) : Bool :=
  ((i.type.map CodeableConcept.coding).getD []).any (fun c => c.code = some "NPI")

/-- The identifier scan of `extract_npi_from_practitioner`: the first
identifier one of whose type codings has code `'NPI'` yields
`identifier.get('value', '0')`; otherwise `'0'`. -/
def npiScan : List Identifier → String
  | [] => "0"
  | i :: rest =>
    if identifierHasNPI i then i.value.getD "0" else npiScan rest

/-- `extract_npi_from_practitioner`.  The argument is `none` when the
practitioner data is absent (`if not practitioner_data: return "0"`; the
falsy empty dict behaves identically, having no identifiers). -/
def extract_npi_from_practitioner (practitioner_data : Option Practitioner) : String :=
  match practitioner_data with
  | none => "0"
  | some p => npiScan p.identifier

/-- `extract_practitioner_name`: first listed name; family as-is
(default `''`), given names joined by a single space.  Returned as the
`(family, given)` pair of the source's dict. -/
def extract_practitioner_name (practitioner_data : Option Practitioner) : String × String :=
  match practitioner_data with
  | none => ("", "")
  | some p =>
    match p.name with
    | [] => ("", "")
    | n :: _ => (n.family.getD "", String.intercalate " " n.given)

/-- `if part:` guard of the address assembly: a truthy (non-empty) string
contributes itself, an empty one contributes nothing. -/
def pushIf (s : String) : List String := if s = "" then [] else [s]

/-- The address-parts assembly shared by `extract_organization_info` and
`extract_location_info`: all `line` entries, then city, state and postal
code when non-empty, joined with `', '`. -/
def addressParts (a : Address) : List String :=
  a.line ++ pushIf (a.city.getD "") ++ pushIf (a.state.getD "")
    ++ pushIf (a.postalCode.getD "")

/-- Result record of `extract_organization_info`. -/
structure OrgInfo where
  name : String
  type : String
  address : String
deriving DecidableEq

/-- `extract_organization_info`: name as-is; type from the first coding of
the first type entry (`display` falling back to `code`); address from the
first address entry. -/
def extract_organization_info (org_data : Option Org) : OrgInfo :=
  match org_data with
  | none => ⟨"", "", ""⟩
  | some o =>
    let otype :=
      match o.type with
      | [] => ""
      | t :: _ =>
        match t.coding with
        | [] => ""
        | c :: _ => c.display.getD (c.code.getD "")
    let addr :=
      match o.address with
      | [] => ""
      | a :: _ => String.intercalate ", " (addressParts a)
    ⟨o.name.getD "", otype, addr⟩

/-- Result record of `extract_location_info`. -/
structure LocInfo where
  name : String
  status : String
  address : String
deriving DecidableEq

/-- `extract_location_info`: name, status, and the address assembled from
the single `address` object (`.get('address', {})`, so an absent address
yields an empty parts list). -/
def extract_location_info (location_data : Option Loc) : LocInfo :=
  match location_data with
  | none => ⟨"", "", ""⟩
  | some l =>
    let a := l.address.getD ⟨[], none, none, none⟩
    ⟨l.name.getD "", l.status.getD "", String.intercalate ", " (addressParts a)⟩

/-! ## Resource Fetcher (`fetch_fhir_resource`)

The HTTP attempts are modelled by a list `outcomes : List (Option α)` of
length `max_retries` (the iteration space of `for attempt in
range(max_retries)`): `outcomes[a] = some r` means attempt `a` returns a
2xx JSON body `r`; `none` means it raises `requests.exceptions.RequestException`
(transport error, timeout, or non-2xx via `raise_for_status`), which the
source catches.  The result records the returned value, the list of backoff
sleep durations performed (`time.sleep(2 ** attempt)`), and the number of
attempts made. -/

/-- Result of one `fetch_fhir_resource` call: returned value, backoff sleep
durations in order, number of attempts performed. -/
structure FetchResult (α : Type) where
  result : Option α
  sleeps : List Nat
  attempts : Nat
deriving DecidableEq

/-- The retry loop body of `fetch_fhir_resource`, from attempt index
`attempt` with per-attempt outcomes `outcomes` remaining.  An empty
`outcomes` models falling off the end of `range(max_retries)` (the
function then implicitly returns `None`); a failed final attempt
(`attempt == max_retries - 1`, i.e. no remaining outcomes after this one)
returns `None` without sleeping. -/
def fetchFrom {α : Type} (attempt : Nat) : List (Option α) → FetchResult α
  | [] => ⟨none, [], attempt⟩
  | o :: rest =>
    match o with
    | some r => ⟨some r, [], attempt + 1⟩
    | none =>
      if rest.isEmpty then ⟨none, [], attempt + 1⟩
      else
        let f := fetchFrom (attempt + 1) rest
        ⟨f.result, 2 ^ attempt :: f.sleeps, f.attempts⟩

/-- `fetch_fhir_resource(url, max_retries)` where `outcomes` lists the
outcome of each of the `max_retries` potential attempts for this URL
(the source default is `max_retries = 3`, i.e. `outcomes.length = 3`). -/
def fetch_fhir_resource {α : Type} (outcomes : List (Option α)) : FetchResult α :=
  fetchFrom 0 outcomes

/-! ## Paginator (`fetch_all_practitioner_roles`)

The page oracle `pageEnv : String → Option Bundle` gives the result of one
logical fetch of a page URL (`none` = `fetch_fhir_resource` exhausted its
retries).  `fuel` bounds the number of pages followed, modelling that any
terminating real run follows finitely many `next` links.  The returned log
is ghost data: one entry per page request issued, carrying the requested
URL and the number of accumulated entries at the moment of the request. -/

/-- The inner `for entry in entries` loop: keep resources whose
`resourceType` is `'PractitionerRole'`; in test mode, `break` as soon as
the accumulated count reaches `test_limit`. -/
def collectEntries (test_mode : Bool) (test_limit : Nat)
    (acc : List PractitionerRole) : List BundleEntry → List PractitionerRole
  | [] => acc
  | e :: rest =>
    match e.resource with
    | some r =>
      if r.resourceType = some "PractitionerRole" then
        let acc2 := acc ++ [r]
        if test_mode ∧ test_limit ≤ acc2.length then acc2
        else collectEntries test_mode test_limit acc2 rest
      else collectEntries test_mode test_limit acc rest
    | none => collectEntries test_mode test_limit acc rest

/-- The `for link in bundle.get('link', [])` scan: the `url` of the first
link whose `relation` is `'next'`. -/
def findNextLink : List Link → Option String
  | [] => none
  | l :: rest => if l.relation = some "next" then l.url else findNextLink rest

/-- `while next_url:` — Python truthiness: both `None` and `''` end the
loop. -/
def truthyUrl (o : Option String) : Option String :=
  match o with
  | some u => if u = "" then none else some u
  | none => none

/-- The `while next_url` pagination loop.  Returns the accumulated
PractitionerRole resources and the ghost page-request log. -/
def fetchPagesLoop (pageEnv : String → Option Bundle) (test_mode : Bool)
    (test_limit : Nat) :
    Nat → Option String → List PractitionerRole → List (String × Nat) →
      List PractitionerRole × List (String × Nat)
  | 0, _, acc, log => (acc, log)
  | _ + 1, none, acc, log => (acc, log)
  | fuel + 1, some url, acc, log =>
    let log2 := log ++ [(url, acc.length)]
    match pageEnv url with
    | none => (acc, log2)
    | some bundle =>
      let acc2 := collectEntries test_mode test_limit acc bundle.entry
      if test_mode ∧ test_limit ≤ acc2.length then (acc2, log2)
      else fetchPagesLoop pageEnv test_mode test_limit fuel
        (truthyUrl (findNextLink bundle.link)) acc2 log2

/-- `fetch_all_practitioner_roles(base_url, test_mode, test_limit)`:
normalizes the base URL and paginates from
`urljoin(base_url, "PractitionerRole?_count=100")`. -/
def fetch_all_practitioner_roles (pageEnv : String → Option Bundle)
    (base_url : String) (test_mode : Bool) (test_limit : Nat) (fuel : Nat) :
    List PractitionerRole × List (String × Nat) :=
  let base := normalizeBase base_url
  fetchPagesLoop pageEnv test_mode test_limit fuel
    (some (urljoin base "PractitionerRole?_count=100")) [] []

/-! ## Rows of the output tables

Each row structure mirrors the dict literal appended in `process_payer`;
`toRow` lists the values in the `fieldnames` order of the corresponding
`csv.DictWriter`. -/

structure OrgToPrRow where
  practitioner_role_fhir_url : String
  organization_fhir_url : String
  organization_reference : String
deriving DecidableEq

def OrgToPrRow.toRow (r : OrgToPrRow) : List String :=
  [r.practitioner_role_fhir_url, r.organization_fhir_url, r.organization_reference]

structure LocToPrRow where
  practitioner_role_fhir_url : String
  location_fhir_url : String
  location_reference : String
deriving DecidableEq

def LocToPrRow.toRow (r : LocToPrRow) : List String :=
  [r.practitioner_role_fhir_url, r.location_fhir_url, r.location_reference]

structure PToPrRow where
  practitioner_role_fhir_url : String
  practitioner_fhir_url : String
  practitioner_reference : String
  npi : String
  is_npi_invalid : String
  family_name : String
  given_name : String
deriving DecidableEq

def PToPrRow.toRow (r : PToPrRow) : List String :=
  [r.practitioner_role_fhir_url, r.practitioner_fhir_url, r.practitioner_reference,
    r.npi, r.is_npi_invalid, r.family_name, r.given_name]

structure SpecToPrRow where
  practitioner_role_fhir_url : String
  specialty_code : String
  specialty_display : String
  specialty_system : String
deriving DecidableEq

def SpecToPrRow.toRow (r : SpecToPrRow) : List String :=
  [r.practitioner_role_fhir_url, r.specialty_code, r.specialty_display, r.specialty_system]

structure TeleToPrRow where
  practitioner_role_fhir_url : String
  telecom_system : String
  telecom_value : String
  telecom_use : String
deriving DecidableEq

def TeleToPrRow.toRow (r : TeleToPrRow) : List String :=
  [r.practitioner_role_fhir_url, r.telecom_system, r.telecom_value, r.telecom_use]

/-! ## The per-payer processing state

Mirrors the local accumulators of `process_payer`: the three entity caches
(Python dicts, modelled as insertion-ordered association lists) and the
five relationship row lists, plus a ghost log of Fetcher invocations. -/

/-- Which entity cache a Fetcher invocation served. -/
inductive EntityKind
  | org
  | loc
  | pract
deriving DecidableEq

/-- Ghost record of one entity fetch: cache kind, cache key (the id), and
the URL passed to `fetch_fhir_resource`. -/
structure FetchCall where
  kind : EntityKind
  id : String
  url : String
deriving DecidableEq

/-- The entity-fetch oracle: for each URL, the result of one logical
`fetch_fhir_resource` call (`none` = retries exhausted, `None` in Python).
One field per entity type, since the source only ever feeds an
`Organization/...` URL to the organization cache, etc. -/
structure EntityEnv where
  org : String → Option Org
  loc : String → Option Loc
  pract : String → Option Practitioner

structure SlurpState where
  organizations : List (String × Org)
  locations : List (String × Loc)
  practitioners : List (String × Practitioner)
  org_to_pr_rows : List OrgToPrRow
  location_to_pr_rows : List LocToPrRow
  p_to_pr_rows : List PToPrRow
  spec_to_pr_rows : List SpecToPrRow
  tele_to_pr_rows : List TeleToPrRow
  fetchLog : List FetchCall

def initState : SlurpState := ⟨[], [], [], [], [], [], [], [], []⟩

/-! ## Per-record processing (`process_payer`'s main loop body) -/

/-- The shared body handling one organization reference (both the
extension-based path, lines 267–279, and the direct-reference path,
lines 283–295, of the source; the direct path's extra `org_ref and`
truthiness guard is redundant since `''.startswith('Organization/')` is
already false): on a cache miss, fetch and cache only on success; then
append the relationship row unconditionally. -/
def handleOrgRef (base pr_id : String) (env : EntityEnv) (org_ref : String)
    (st : SlurpState) : SlurpState :=
  if strStartsWith org_ref "Organization/" then
    let org_id := lastSeg org_ref
    let st2 :=
      if (dictLookup org_id st.organizations).isNone then
        let org_url := urljoin base org_ref
        let st1 := { st with fetchLog := st.fetchLog ++ [⟨.org, org_id, org_url⟩] }
        match env.org org_url with
        | some d => { st1 with organizations := st1.organizations ++ [(org_id, d)] }
        | none => st1
      else st
    { st2 with org_to_pr_rows := st2.org_to_pr_rows ++
        [⟨urljoin base ("PractitionerRole/" ++ pr_id), urljoin base org_ref, org_ref⟩] }
  else st

/-- The `for ext in extensions` loop: organization references carried by
the network-reference extension. -/
def processExtensions (base pr_id : String) (env : EntityEnv)
    (exts : List Extension) (st : SlurpState) : SlurpState :=
  exts.foldl (fun st ext =>
    if ext.url =
        some "http://hl7.org/fhir/us/davinci-pdex-plan-net/StructureDefinition/network-reference" then
      handleOrgRef base pr_id env (refString ext.valueReference) st
    else st) st

/-- The practitioner-reference block (lines 298–320): cache-miss fetch
(cached only on success), then NPI/name extraction from the cache
(`practitioners.get(practitioner_id, {})` — a failed fetch leaves the
cache without the key, so the extractors receive the absent default) and
the `p_to_pr` row. -/
def processPractitioner (base pr_id : String) (env : EntityEnv)
    (practitioner_ref : String) (st : SlurpState) : SlurpState :=
  if practitioner_ref ≠ "" ∧ strStartsWith practitioner_ref "Practitioner/" then
    let practitioner_id := lastSeg practitioner_ref
    let st2 :=
      if (dictLookup practitioner_id st.practitioners).isNone then
        let url := urljoin base practitioner_ref
        let st1 := { st with fetchLog := st.fetchLog ++ [⟨.pract, practitioner_id, url⟩] }
        match env.pract url with
        | some d => { st1 with practitioners := st1.practitioners ++ [(practitioner_id, d)] }
        | none => st1
      else st
    let practitioner_data := dictLookup practitioner_id st2.practitioners
    let npi := extract_npi_from_practitioner practitioner_data
    let nm := extract_practitioner_name practitioner_data
    { st2 with p_to_pr_rows := st2.p_to_pr_rows ++
        [⟨urljoin base ("PractitionerRole/" ++ pr_id), urljoin base practitioner_ref,
          practitioner_ref, npi, "?", nm.1, nm.2⟩] }
  else st

/-- The body of the `for loc_ref_obj in location_refs` loop (lines
324–338): mirror image of `handleOrgRef` for the location cache, with the
reference taken from the loop variable's `reference` field. -/
def locStep (base pr_id : String) (env : EntityEnv) (st : SlurpState)
    (lro : RefObj) : SlurpState :=
  let loc_ref := lro.reference.getD ""
  if loc_ref ≠ "" ∧ strStartsWith loc_ref "Location/" then
    let loc_id := lastSeg loc_ref
    let st2 :=
      if (dictLookup loc_id st.locations).isNone then
        let url := urljoin base loc_ref
        let st1 := { st with fetchLog := st.fetchLog ++ [⟨.loc, loc_id, url⟩] }
        match env.loc url with
        | some d => { st1 with locations := st1.locations ++ [(loc_id, d)] }
        | none => st1
      else st
    { st2 with location_to_pr_rows := st2.location_to_pr_rows ++
        [⟨urljoin base ("PractitionerRole/" ++ pr_id), urljoin base loc_ref, loc_ref⟩] }
  else st

/-- The `for loc_ref_obj in location_refs` loop (lines 323–338). -/
def processLocations (base pr_id : String) (env : EntityEnv)
    (locs : List RefObj) (st : SlurpState) : SlurpState :=
  locs.foldl (locStep base pr_id env) st

/-- The specialty double loop (lines 341–354): one row per coding entry. -/
def processSpecialties (base pr_id : String) (specs : List CodeableConcept)
    (st : SlurpState) : SlurpState :=
  specs.foldl (fun st sp =>
    sp.coding.foldl (fun st c =>
      { st with spec_to_pr_rows := st.spec_to_pr_rows ++
          [⟨urljoin base ("PractitionerRole/" ++ pr_id), c.code.getD "",
            c.display.getD "", c.system.getD ""⟩] }) st) st

/-- The telecom loop (lines 357–368): one row per telecom entry. -/
def processTelecoms (base pr_id : String) (teles : List Telecom)
    (st : SlurpState) : SlurpState :=
  teles.foldl (fun st t =>
    { st with tele_to_pr_rows := st.tele_to_pr_rows ++
        [⟨urljoin base ("PractitionerRole/" ++ pr_id), t.system.getD "",
          t.value.getD "", t.use.getD ""⟩] }) st

/-- One iteration of `for i, pr in enumerate(practitioner_roles)`. -/
def processRecord (base : String) (env : EntityEnv) (st : SlurpState)
    (pr : PractitionerRole) : SlurpState :=
  let pr_id := pr.id.getD ""
  let st1 := processExtensions base pr_id env pr.extension st
  let st2 := handleOrgRef base pr_id env (refString pr.organization) st1
  let st3 := processPractitioner base pr_id env (refString pr.practitioner) st2
  let st4 := processLocations base pr_id env pr.location st3
  let st5 := processSpecialties base pr_id pr.specialty st4
  processTelecoms base pr_id pr.telecom st5

/-! ## Relational Writer and filesystem model -/

/-- The filesystem: path → CSV contents (`none` = no such file).  A CSV
file is its list of rows, each row the list of cell values. -/
abbrev FS := String → Option (List (List String))

/-- The contents `csv.DictWriter` leaves in the (truncated) file:
`writeheader` and `writerows` run only under `if rows:`, so a run with no
rows leaves the freshly truncated file empty — no header. -/
def mkTable (header : List String) (rows : List (List String)) :
    List (List String) :=
  if rows.isEmpty then [] else header :: rows

/-- `open(path, 'w')` followed by the guarded header/rows write: truncates
and replaces whatever was at `path`. -/
def writeTable (path : String) (header : List String)
    (rows : List (List String)) (fs : FS) : FS :=
  fun p => if p = path then some (mkTable header rows) else fs p

def orgToPrHeader : List String :=
  ["practitioner_role_fhir_url", "organization_fhir_url", "organization_reference"]
def orgHeader : List String := ["organization_fhir_url", "name", "type", "address"]
def locToPrHeader : List String :=
  ["practitioner_role_fhir_url", "location_fhir_url", "location_reference"]
def locHeader : List String := ["location_fhir_url", "name", "status", "address"]
def pToPrHeader : List String :=
  ["practitioner_role_fhir_url", "practitioner_fhir_url", "practitioner_reference",
    "npi", "is_npi_invalid", "family_name", "given_name"]
def specHeader : List String :=
  ["practitioner_role_fhir_url", "specialty_code", "specialty_display", "specialty_system"]
def teleHeader : List String :=
  ["practitioner_role_fhir_url", "telecom_system", "telecom_value", "telecom_use"]

/-- The `org.csv` data rows: one per cache entry, in insertion order
(Python dicts preserve it), through `extract_organization_info`. -/
def orgRows (base : String) (orgs : List (String × Org)) : List (List String) :=
  orgs.map (fun p =>
    let info := extract_organization_info (some p.2)
    [urljoin base ("Organization/" ++ p.1), info.name, info.type, info.address])

/-- The `location.csv` data rows. -/
def locationRows (base : String) (locs : List (String × Loc)) : List (List String) :=
  locs.map (fun p =>
    let info := extract_location_info (some p.2)
    [urljoin base ("Location/" ++ p.1), info.name, info.status, info.address])

/-- The output directory: a separate test root in test mode (lines
230–233). -/
def outputDir (test_mode : Bool) (stub : String) : String :=
  if test_mode then "payer_slurp_test_results/" ++ stub
  else "payer_slurp_results/" ++ stub

/-- The write phase of `process_payer` (lines 372–439), in source order. -/
def writeOutputs (dir base : String) (st : SlurpState) (fs : FS) : FS :=
  let fs1 := writeTable (dir ++ "/org_to_pr.csv") orgToPrHeader
    (st.org_to_pr_rows.map OrgToPrRow.toRow) fs
  let fs2 := writeTable (dir ++ "/org.csv") orgHeader
    (orgRows base st.organizations) fs1
  let fs3 := writeTable (dir ++ "/location_to_pr.csv") locToPrHeader
    (st.location_to_pr_rows.map LocToPrRow.toRow) fs2
  let fs4 := writeTable (dir ++ "/location.csv") locHeader
    (locationRows base st.locations) fs3
  let fs5 := writeTable (dir ++ "/p_to_pr.csv") pToPrHeader
    (st.p_to_pr_rows.map PToPrRow.toRow) fs4
  let fs6 := writeTable (dir ++ "/spec_to_pr.csv") specHeader
    (st.spec_to_pr_rows.map SpecToPrRow.toRow) fs5
  writeTable (dir ++ "/tele_to_pr.csv") teleHeader
    (st.tele_to_pr_rows.map TeleToPrRow.toRow) fs6

/-- The CSV files `process_payer` writes, in write order. -/
def outputPaths (dir : String) : List String :=
  [dir ++ "/org_to_pr.csv", dir ++ "/org.csv", dir ++ "/location_to_pr.csv",
    dir ++ "/location.csv", dir ++ "/p_to_pr.csv", dir ++ "/spec_to_pr.csv",
    dir ++ "/tele_to_pr.csv"]

/-- A payer-endpoint row of `good_payer_endpoints.csv`. -/
structure Payer where
  payer_name : String
  payer_stub : String
  payer_provider_directory_fhir_url : String
deriving DecidableEq

/-- Result of one `process_payer` call: the filesystem afterwards, the
final accumulator state (ghost, for stating the claims), the crawled
records and the ghost page-request log. -/
structure RunResult where
  fs : FS
  state : SlurpState
  roles : List PractitionerRole
  pageLog : List (String × Nat)

/-- `process_payer(payer, test_mode, test_limit)`: crawl the collection;
on an empty crawl print and return (no file is opened, lines 240–242);
otherwise process every record and then overwrite the seven CSV files. -/
def process_payer (pageEnv : String → Option Bundle) (env : EntityEnv)
    (payer : Payer) (test_mode : Bool) (test_limit : Nat) (fuel : Nat)
    (fs : FS) : RunResult :=
  let base_url := normalizeBase payer.payer_provider_directory_fhir_url
  let dir := outputDir test_mode payer.payer_stub
  let crawl := fetch_all_practitioner_roles pageEnv
    payer.payer_provider_directory_fhir_url test_mode test_limit fuel
  let practitioner_roles := crawl.1
  if practitioner_roles.isEmpty then
    ⟨fs, initState, practitioner_roles, crawl.2⟩
  else
    let st := practitioner_roles.foldl (processRecord base_url env) initState
    ⟨writeOutputs dir base_url st fs, st, practitioner_roles, crawl.2⟩

/-! ## Orchestrator (`main`)

`pipeline` abstracts one payer's full pipeline: it returns the filesystem
as the pipeline left it (possibly partially written) together with
`some message` when the pipeline raised an exception.  The `try/except`
around `process_payer(payer, ...)` catches the exception, prints it, and
lets the `for payer in payers` loop continue, so the loop proceeds to the
remaining payers either way. -/
def mainLoop (pipeline : Payer → FS → FS × Option String) :
    List Payer → FS → FS
  | [], fs => fs
  | p :: rest, fs => mainLoop pipeline rest (pipeline p fs).1

/-! ## Derived notions used by the claims -/

/-- The entity ids appearing in the reference column of the `org_to_pr`
table (the id is the segment after the last `/`, exactly the cache key the
source extracts). -/
def orgRefIds (rows : List OrgToPrRow) : List String :=
  rows.map (fun r => lastSeg r.organization_reference)

/-- The entity ids appearing in the reference column of `location_to_pr`. -/
def locRefIds (rows : List LocToPrRow) : List String :=
  rows.map (fun r => lastSeg r.location_reference)

/-- The entity ids appearing in the reference column of `p_to_pr`. -/
def practRefIds (rows : List PToPrRow) : List String :=
  rows.map (fun r => lastSeg r.practitioner_reference)

/-- How many times the Fetcher was invoked for a given cache kind and
entity id during a run. -/
def countCalls (k : EntityKind) (id : String) (log : List FetchCall) : Nat :=
  (log.filter (fun c => decide (c.kind = k ∧ c.id = id))).length

/-- C2/C3 invariant for the organization cache: cache keys are
duplicate-free; an id is cached iff it appears among the ids referenced by
the `org_to_pr` rows; and the Fetcher was invoked exactly once for each
cached id and never for any other (the form this takes when every fetch
succeeds). -/
def InvOrg (st : SlurpState) : Prop :=
  (st.organizations.map Prod.fst).Nodup ∧
  (∀ id, (dictLookup id st.organizations).isSome ↔ id ∈ orgRefIds st.org_to_pr_rows) ∧
  (∀ id, countCalls EntityKind.org id st.fetchLog =
    if (dictLookup id st.organizations).isSome then 1 else 0)

/-- The location analogue of `InvOrg`. -/
def InvLoc (st : SlurpState) : Prop :=
  (st.locations.map Prod.fst).Nodup ∧
  (∀ id, (dictLookup id st.locations).isSome ↔ id ∈ locRefIds st.location_to_pr_rows) ∧
  (∀ id, countCalls EntityKind.loc id st.fetchLog =
    if (dictLookup id st.locations).isSome then 1 else 0)

/-- The practitioner analogue of `InvOrg`. -/
def InvPract (st : SlurpState) : Prop :=
  (st.practitioners.map Prod.fst).Nodup ∧
  (∀ id, (dictLookup id st.practitioners).isSome ↔ id ∈ practRefIds st.p_to_pr_rows) ∧
  (∀ id, countCalls EntityKind.pract id st.fetchLog =
    if (dictLookup id st.practitioners).isSome then 1 else 0)

/-- Every cached entity is a value some fetch actually returned: the
caches store only successful results (for any environment, failing or
not). -/
def CachedOnSuccess (env : EntityEnv) (st : SlurpState) : Prop :=
  (∀ pr ∈ st.organizations, ∃ u, env.org u = some pr.2) ∧
  (∀ pr ∈ st.locations, ∃ u, env.loc u = some pr.2) ∧
  (∀ pr ∈ st.practitioners, ∃ u, env.pract u = some pr.2)

/-- The entity environment in which every fetch exhausts its retries. -/
def failEnv : EntityEnv := ⟨fun _ => none, fun _ => none, fun _ => none⟩

/-- Under `failEnv` the practitioner cache never fills, so every `p_to_pr`
row is built from the absent default: NPI `"0"`, empty names. -/
def FailInv (st : SlurpState) : Prop :=
  st.practitioners = [] ∧
  ∀ row ∈ st.p_to_pr_rows,
    row.npi = "0" ∧ row.family_name = "" ∧ row.given_name = ""

/-! ## Concrete test fixtures (used by witnesses and counterexamples) -/

/-- A payer whose base URL `"b"` lacks the trailing separator (so the
pagination URL exercises the normalization). -/
def exPayer : Payer := ⟨"Example Payer", "s", "b"⟩

def exOrg : Org := ⟨some "OrgName", [], []⟩

def exLoc : Loc := ⟨some "LocName", some "active", none⟩

def exPract : Practitioner :=
  ⟨[⟨some ⟨[⟨some "NPI", none, none⟩]⟩, some "1234567890"⟩],
    [⟨some "Fam", ["G1", "G2"]⟩]⟩

/-- An environment where every entity fetch succeeds. -/
def exEnv : EntityEnv :=
  ⟨fun _ => some exOrg, fun _ => some exLoc, fun _ => some exPract⟩

/-- A record with one direct organization reference, one practitioner
reference, one location reference, one telecom entry and no specialties. -/
def exPR : PractitionerRole :=
  ⟨some "PractitionerRole", some "r1", [], some ⟨some "Organization/A"⟩,
    some ⟨some "Practitioner/P"⟩, [⟨some "Location/L"⟩], [],
    [⟨some "phone", some "555", some "work"⟩]⟩

/-- A second record referencing the same organization id `A`. -/
def exPR2 : PractitionerRole :=
  ⟨some "PractitionerRole", some "r2", [], some ⟨some "Organization/A"⟩,
    none, [], [], []⟩

def exBundle : Bundle := ⟨[⟨some exPR⟩], []⟩

def exBundle2 : Bundle := ⟨[⟨some exPR⟩, ⟨some exPR2⟩], []⟩

/-- A one-page upstream source serving `exBundle`. -/
def exPageEnv : String → Option Bundle := fun u =>
  if u = "b/PractitionerRole?_count=100" then some exBundle else none

/-- A one-page upstream source serving `exBundle2`. -/
def exPageEnv2 : String → Option Bundle := fun u =>
  if u = "b/PractitionerRole?_count=100" then some exBundle2 else none

/-- An upstream source shrunk to nothing: every page fetch is absent. -/
def emptyPageEnv : String → Option Bundle := fun _ => none

def emptyFS : FS := fun _ => none

/-- A filesystem where every path already holds a stale file. -/
def oldFS : FS := fun _ => some [["old"]]

def exPayerA : Payer := ⟨"Payer A", "A", "u"⟩

def exPayerB : Payer := ⟨"Payer B", "B", "u"⟩

def exPayerC : Payer := ⟨"Payer C", "C", "u"⟩

/-- A sample per-payer pipeline for the orchestrator claim: it writes one
marker file in its own payer's output directory, and raises (returns an
exception message) exactly for payer stub `"B"`. -/
def exPipeline : Payer → FS → FS × Option String := fun q g =>
  (fun p => if p = "payer_slurp_results/" ++ q.payer_stub ++ "/org.csv"
      then some [["x"]] else g p,
    if q.payer_stub = "B" then some "boom" else none)

/-! ## Basic lemmas -/

theorem dictLookup_isSome_iff_mem {α : Type} (k : String) (l : List (String × α)) :
    (dictLookup k l).isSome ↔ k ∈ l.map Prod.fst := by
  induction l with
  | nil => simp [dictLookup]
  | cons p rest ih =>
    by_cases h : p.1 = k
    · simp [dictLookup, h]
    · simp [dictLookup, h, ih, Ne.symm h]

theorem dictLookup_append_single {α : Type} (k k2 : String) (v : α)
    (l : List (String × α)) :
    dictLookup k (l ++ [(k2, v)]) =
      match dictLookup k l with
      | some w => some w
      | none => if k2 = k then some v else none := by
  induction l with
  | nil => simp [dictLookup]
  | cons p rest ih =>
    by_cases h : p.1 = k
    · simp [dictLookup, h]
    · simp [dictLookup, h, ih]

theorem countCalls_append (k : EntityKind) (id : String)
    (l1 l2 : List FetchCall) :
    countCalls k id (l1 ++ l2) = countCalls k id l1 + countCalls k id l2 := by
  simp [countCalls, List.filter_append]

theorem countCalls_single (k : EntityKind) (id : String) (c : FetchCall) :
    countCalls k id [c] = if c.kind = k ∧ c.id = id then 1 else 0 := by
  by_cases h : c.kind = k ∧ c.id = id <;> simp [countCalls, h]

theorem countCalls_append_other (k : EntityKind) (id : String)
    (l1 l2 : List FetchCall) (h : ∀ c ∈ l2, c.kind ≠ k) :
    countCalls k id (l1 ++ l2) = countCalls k id l1 := by
  rw [countCalls_append]
  have : countCalls k id l2 = 0 := by
    simp only [countCalls, List.length_eq_zero, List.filter_eq_nil_iff]
    intro c hc
    simp only [decide_eq_true_eq, not_and]
    intro hk
    exact absurd hk (h c hc)
  omega

theorem initState_invariants : InvOrg initState ∧ InvLoc initState ∧
    InvPract initState := by
  refine ⟨⟨?_, ?_, ?_⟩, ⟨?_, ?_, ?_⟩, ⟨?_, ?_, ?_⟩⟩ <;>
    simp [initState, dictLookup, orgRefIds, locRefIds, practRefIds, countCalls]

/-! ## Frame lemmas: which state fields each processing step can touch -/

theorem handleOrgRef_frame (b i : String) (env : EntityEnv) (r : String)
    (st : SlurpState) :
    (handleOrgRef b i env r st).locations = st.locations ∧
    (handleOrgRef b i env r st).location_to_pr_rows = st.location_to_pr_rows ∧
    (handleOrgRef b i env r st).practitioners = st.practitioners ∧
    (handleOrgRef b i env r st).p_to_pr_rows = st.p_to_pr_rows ∧
    (handleOrgRef b i env r st).spec_to_pr_rows = st.spec_to_pr_rows ∧
    (handleOrgRef b i env r st).tele_to_pr_rows = st.tele_to_pr_rows := by
  by_cases hs : strStartsWith r "Organization/"
  · by_cases hmiss : (dictLookup (lastSeg r) st.organizations).isNone
    · cases henv : env.org (urljoin b r) <;>
        simp [handleOrgRef, hs, hmiss, henv]
    · simp [handleOrgRef, hs, hmiss]
  · simp [handleOrgRef, hs]

theorem handleOrgRef_fetchLog (b i : String) (env : EntityEnv) (r : String)
    (st : SlurpState) :
    ∃ nl, (∀ c ∈ nl, c.kind = EntityKind.org) ∧
      (handleOrgRef b i env r st).fetchLog = st.fetchLog ++ nl := by
  by_cases hs : strStartsWith r "Organization/"
  · by_cases hmiss : (dictLookup (lastSeg r) st.organizations).isNone
    · cases henv : env.org (urljoin b r)
      · exact ⟨[⟨.org, lastSeg r, urljoin b r⟩], by simp,
          by simp [handleOrgRef, hs, hmiss, henv]⟩
      · exact ⟨[⟨.org, lastSeg r, urljoin b r⟩], by simp,
          by simp [handleOrgRef, hs, hmiss, henv]⟩
    · exact ⟨[], by simp, by simp [handleOrgRef, hs, hmiss]⟩
  · exact ⟨[], by simp, by simp [handleOrgRef, hs]⟩

theorem processExtensions_frame (b i : String) (env : EntityEnv)
    (exts : List Extension) (st : SlurpState) :
    (processExtensions b i env exts st).locations = st.locations ∧
    (processExtensions b i env exts st).location_to_pr_rows = st.location_to_pr_rows ∧
    (processExtensions b i env exts st).practitioners = st.practitioners ∧
    (processExtensions b i env exts st).p_to_pr_rows = st.p_to_pr_rows ∧
    (processExtensions b i env exts st).spec_to_pr_rows = st.spec_to_pr_rows ∧
    (processExtensions b i env exts st).tele_to_pr_rows = st.tele_to_pr_rows := by
  induction exts generalizing st with
  | nil => exact ⟨rfl, rfl, rfl, rfl, rfl, rfl⟩
  | cons e rest ih =>
    simp only [processExtensions, List.foldl_cons] at ih ⊢
    split
    · obtain ⟨h1, h2, h3, h4, h5, h6⟩ :=
        handleOrgRef_frame b i env (refString e.valueReference) st
      obtain ⟨g1, g2, g3, g4, g5, g6⟩ :=
        ih (handleOrgRef b i env (refString e.valueReference) st)
      exact ⟨g1.trans h1, g2.trans h2, g3.trans h3, g4.trans h4,
        g5.trans h5, g6.trans h6⟩
    · exact ih st

theorem processExtensions_fetchLog (b i : String) (env : EntityEnv)
    (exts : List Extension) (st : SlurpState) :
    ∃ nl, (∀ c ∈ nl, c.kind = EntityKind.org) ∧
      (processExtensions b i env exts st).fetchLog = st.fetchLog ++ nl := by
  induction exts generalizing st with
  | nil => exact ⟨[], by simp, by simp [processExtensions]⟩
  | cons e rest ih =>
    simp only [processExtensions, List.foldl_cons] at ih ⊢
    split
    · obtain ⟨nl1, hk1, he1⟩ :=
        handleOrgRef_fetchLog b i env (refString e.valueReference) st
      obtain ⟨nl2, hk2, he2⟩ := ih (handleOrgRef b i env (refString e.valueReference) st)
      refine ⟨nl1 ++ nl2, ?_, ?_⟩
      · intro c hc
        rcases List.mem_append.mp hc with h | h
        · exact hk1 c h
        · exact hk2 c h
      · rw [he2, he1, List.append_assoc]
    · exact ih st

theorem processPractitioner_frame (b i : String) (env : EntityEnv) (r : String)
    (st : SlurpState) :
    (processPractitioner b i env r st).organizations = st.organizations ∧
    (processPractitioner b i env r st).org_to_pr_rows = st.org_to_pr_rows ∧
    (processPractitioner b i env r st).locations = st.locations ∧
    (processPractitioner b i env r st).location_to_pr_rows = st.location_to_pr_rows ∧
    (processPractitioner b i env r st).spec_to_pr_rows = st.spec_to_pr_rows ∧
    (processPractitioner b i env r st).tele_to_pr_rows = st.tele_to_pr_rows := by
  by_cases hs : r ≠ "" ∧ strStartsWith r "Practitioner/"
  · by_cases hmiss : (dictLookup (lastSeg r) st.practitioners).isNone
    · cases henv : env.pract (urljoin b r) <;>
        simp [processPractitioner, hs, hmiss, henv]
    · simp [processPractitioner, hs, hmiss]
  · simp [processPractitioner, hs]

theorem processPractitioner_fetchLog (b i : String) (env : EntityEnv) (r : String)
    (st : SlurpState) :
    ∃ nl, (∀ c ∈ nl, c.kind = EntityKind.pract) ∧
      (processPractitioner b i env r st).fetchLog = st.fetchLog ++ nl := by
  by_cases hs : r ≠ "" ∧ strStartsWith r "Practitioner/"
  · by_cases hmiss : (dictLookup (lastSeg r) st.practitioners).isNone
    · cases henv : env.pract (urljoin b r)
      · exact ⟨[⟨.pract, lastSeg r, urljoin b r⟩], by simp,
          by simp [processPractitioner, hs, hmiss, henv]⟩
      · exact ⟨[⟨.pract, lastSeg r, urljoin b r⟩], by simp,
          by simp [processPractitioner, hs, hmiss, henv]⟩
    · exact ⟨[], by simp, by simp [processPractitioner, hs, hmiss]⟩
  · exact ⟨[], by simp, by simp [processPractitioner, hs]⟩

theorem locStep_frame (b i : String) (env : EntityEnv) (st : SlurpState)
    (lro : RefObj) :
    (locStep b i env st lro).organizations = st.organizations ∧
    (locStep b i env st lro).org_to_pr_rows = st.org_to_pr_rows ∧
    (locStep b i env st lro).practitioners = st.practitioners ∧
    (locStep b i env st lro).p_to_pr_rows = st.p_to_pr_rows ∧
    (locStep b i env st lro).spec_to_pr_rows = st.spec_to_pr_rows ∧
    (locStep b i env st lro).tele_to_pr_rows = st.tele_to_pr_rows := by
  by_cases hs : lro.reference.getD "" ≠ "" ∧
      strStartsWith (lro.reference.getD "") "Location/"
  · by_cases hmiss : (dictLookup (lastSeg (lro.reference.getD "")) st.locations).isNone
    · cases henv : env.loc (urljoin b (lro.reference.getD "")) <;>
        simp [locStep, hs, hmiss, henv]
    · simp [locStep, hs, hmiss]
  · simp [locStep, hs]

theorem locStep_fetchLog (b i : String) (env : EntityEnv) (st : SlurpState)
    (lro : RefObj) :
    ∃ nl, (∀ c ∈ nl, c.kind = EntityKind.loc) ∧
      (locStep b i env st lro).fetchLog = st.fetchLog ++ nl := by
  by_cases hs : lro.reference.getD "" ≠ "" ∧
      strStartsWith (lro.reference.getD "") "Location/"
  · by_cases hmiss : (dictLookup (lastSeg (lro.reference.getD "")) st.locations).isNone
    · cases henv : env.loc (urljoin b (lro.reference.getD ""))
      · exact ⟨[⟨.loc, lastSeg (lro.reference.getD ""), urljoin b (lro.reference.getD "")⟩],
          by simp, by simp [locStep, hs, hmiss, henv]⟩
      · exact ⟨[⟨.loc, lastSeg (lro.reference.getD ""), urljoin b (lro.reference.getD "")⟩],
          by simp, by simp [locStep, hs, hmiss, henv]⟩
    · exact ⟨[], by simp, by simp [locStep, hs, hmiss]⟩
  · exact ⟨[], by simp, by simp [locStep, hs]⟩

theorem processLocations_frame (b i : String) (env : EntityEnv)
    (locs : List RefObj) (st : SlurpState) :
    (processLocations b i env locs st).organizations = st.organizations ∧
    (processLocations b i env locs st).org_to_pr_rows = st.org_to_pr_rows ∧
    (processLocations b i env locs st).practitioners = st.practitioners ∧
    (processLocations b i env locs st).p_to_pr_rows = st.p_to_pr_rows ∧
    (processLocations b i env locs st).spec_to_pr_rows = st.spec_to_pr_rows ∧
    (processLocations b i env locs st).tele_to_pr_rows = st.tele_to_pr_rows := by
  induction locs generalizing st with
  | nil => exact ⟨rfl, rfl, rfl, rfl, rfl, rfl⟩
  | cons e rest ih =>
    simp only [processLocations, List.foldl_cons] at ih ⊢
    obtain ⟨h1, h2, h3, h4, h5, h6⟩ := locStep_frame b i env st e
    obtain ⟨g1, g2, g3, g4, g5, g6⟩ := ih (locStep b i env st e)
    exact ⟨g1.trans h1, g2.trans h2, g3.trans h3, g4.trans h4,
      g5.trans h5, g6.trans h6⟩

theorem processLocations_fetchLog (b i : String) (env : EntityEnv)
    (locs : List RefObj) (st : SlurpState) :
    ∃ nl, (∀ c ∈ nl, c.kind = EntityKind.loc) ∧
      (processLocations b i env locs st).fetchLog = st.fetchLog ++ nl := by
  induction locs generalizing st with
  | nil => exact ⟨[], by simp, by simp [processLocations]⟩
  | cons e rest ih =>
    simp only [processLocations, List.foldl_cons] at ih ⊢
    obtain ⟨nl1, hk1, he1⟩ := locStep_fetchLog b i env st e
    obtain ⟨nl2, hk2, he2⟩ := ih (locStep b i env st e)
    refine ⟨nl1 ++ nl2, ?_, ?_⟩
    · intro c hc
      rcases List.mem_append.mp hc with h | h
      · exact hk1 c h
      · exact hk2 c h
    · rw [he2, he1, List.append_assoc]

theorem processSpecialties_frame (b i : String) (specs : List CodeableConcept)
    (st : SlurpState) :
    (processSpecialties b i specs st).organizations = st.organizations ∧
    (processSpecialties b i specs st).org_to_pr_rows = st.org_to_pr_rows ∧
    (processSpecialties b i specs st).locations = st.locations ∧
    (processSpecialties b i specs st).location_to_pr_rows = st.location_to_pr_rows ∧
    (processSpecialties b i specs st).practitioners = st.practitioners ∧
    (processSpecialties b i specs st).p_to_pr_rows = st.p_to_pr_rows ∧
    (processSpecialties b i specs st).tele_to_pr_rows = st.tele_to_pr_rows ∧
    (processSpecialties b i specs st).fetchLog = st.fetchLog := by
  induction specs generalizing st with
  | nil => exact ⟨rfl, rfl, rfl, rfl, rfl, rfl, rfl, rfl⟩
  | cons sp rest ih =>
    simp only [processSpecialties, List.foldl_cons] at ih ⊢
    have inner : ∀ (cl : List Coding) (st1 : SlurpState),
        (cl.foldl (fun st c =>
          { st with spec_to_pr_rows := st.spec_to_pr_rows ++
              [⟨urljoin b ("PractitionerRole/" ++ i), c.code.getD "",
                c.display.getD "", c.system.getD ""⟩] }) st1).organizations
            = st1.organizations ∧
        (cl.foldl (fun st c =>
          { st with spec_to_pr_rows := st.spec_to_pr_rows ++
              [⟨urljoin b ("PractitionerRole/" ++ i), c.code.getD "",
                c.display.getD "", c.system.getD ""⟩] }) st1).org_to_pr_rows
            = st1.org_to_pr_rows ∧
        (cl.foldl (fun st c =>
          { st with spec_to_pr_rows := st.spec_to_pr_rows ++
              [⟨urljoin b ("PractitionerRole/" ++ i), c.code.getD "",
                c.display.getD "", c.system.getD ""⟩] }) st1).locations
            = st1.locations ∧
        (cl.foldl (fun st c =>
          { st with spec_to_pr_rows := st.spec_to_pr_rows ++
              [⟨urljoin b ("PractitionerRole/" ++ i), c.code.getD "",
                c.display.getD "", c.system.getD ""⟩] }) st1).location_to_pr_rows
            = st1.location_to_pr_rows ∧
        (cl.foldl (fun st c =>
          { st with spec_to_pr_rows := st.spec_to_pr_rows ++
              [⟨urljoin b ("PractitionerRole/" ++ i), c.code.getD "",
                c.display.getD "", c.system.getD ""⟩] }) st1).practitioners
            = st1.practitioners ∧
        (cl.foldl (fun st c =>
          { st with spec_to_pr_rows := st.spec_to_pr_rows ++
              [⟨urljoin b ("PractitionerRole/" ++ i), c.code.getD "",
                c.display.getD "", c.system.getD ""⟩] }) st1).p_to_pr_rows
            = st1.p_to_pr_rows ∧
        (cl.foldl (fun st c =>
          { st with spec_to_pr_rows := st.spec_to_pr_rows ++
              [⟨urljoin b ("PractitionerRole/" ++ i), c.code.getD "",
                c.display.getD "", c.system.getD ""⟩] }) st1).tele_to_pr_rows
            = st1.tele_to_pr_rows ∧
        (cl.foldl (fun st c =>
          { st with spec_to_pr_rows := st.spec_to_pr_rows ++
              [⟨urljoin b ("PractitionerRole/" ++ i), c.code.getD "",
                c.display.getD "", c.system.getD ""⟩] }) st1).fetchLog
            = st1.fetchLog := by
      intro cl
      induction cl with
      | nil => exact fun st1 => ⟨rfl, rfl, rfl, rfl, rfl, rfl, rfl, rfl⟩
      | cons c rest2 ih2 =>
        intro st1
        simpa using ih2 _
    obtain ⟨h1, h2, h3, h4, h5, h6, h7, h8⟩ := inner sp.coding st
    obtain ⟨g1, g2, g3, g4, g5, g6, g7, g8⟩ := ih _
    exact ⟨g1.trans h1, g2.trans h2, g3.trans h3, g4.trans h4, g5.trans h5,
      g6.trans h6, g7.trans h7, g8.trans h8⟩

theorem processTelecoms_frame (b i : String) (teles : List Telecom)
    (st : SlurpState) :
    (processTelecoms b i teles st).organizations = st.organizations ∧
    (processTelecoms b i teles st).org_to_pr_rows = st.org_to_pr_rows ∧
    (processTelecoms b i teles st).locations = st.locations ∧
    (processTelecoms b i teles st).location_to_pr_rows = st.location_to_pr_rows ∧
    (processTelecoms b i teles st).practitioners = st.practitioners ∧
    (processTelecoms b i teles st).p_to_pr_rows = st.p_to_pr_rows ∧
    (processTelecoms b i teles st).spec_to_pr_rows = st.spec_to_pr_rows ∧
    (processTelecoms b i teles st).fetchLog = st.fetchLog := by
  induction teles generalizing st with
  | nil => exact ⟨rfl, rfl, rfl, rfl, rfl, rfl, rfl, rfl⟩
  | cons t rest ih =>
    simp only [processTelecoms, List.foldl_cons] at ih ⊢
    simpa using ih _

/-! ## Preservation of the cache invariants -/

theorem orgRefIds_append (r1 r2 : List OrgToPrRow) :
    orgRefIds (r1 ++ r2) = orgRefIds r1 ++ orgRefIds r2 := by
  simp [orgRefIds]

theorem locRefIds_append (r1 r2 : List LocToPrRow) :
    locRefIds (r1 ++ r2) = locRefIds r1 ++ locRefIds r2 := by
  simp [locRefIds]

theorem practRefIds_append (r1 r2 : List PToPrRow) :
    practRefIds (r1 ++ r2) = practRefIds r1 ++ practRefIds r2 := by
  simp [practRefIds]

theorem InvOrg_of_frame (st st' : SlurpState)
    (h1 : st'.organizations = st.organizations)
    (h2 : st'.org_to_pr_rows = st.org_to_pr_rows)
    (h3 : ∃ nl, (∀ c ∈ nl, c.kind ≠ EntityKind.org) ∧
      st'.fetchLog = st.fetchLog ++ nl)
    (h : InvOrg st) : InvOrg st' := by
  obtain ⟨hnd, hiff, hcnt⟩ := h
  obtain ⟨nl, hk, he⟩ := h3
  refine ⟨by rw [h1]; exact hnd, ?_, ?_⟩
  · intro id
    rw [h1, h2]
    exact hiff id
  · intro id
    rw [he, countCalls_append_other _ _ _ _ hk, h1]
    exact hcnt id

theorem InvLoc_of_frame (st st' : SlurpState)
    (h1 : st'.locations = st.locations)
    (h2 : st'.location_to_pr_rows = st.location_to_pr_rows)
    (h3 : ∃ nl, (∀ c ∈ nl, c.kind ≠ EntityKind.loc) ∧
      st'.fetchLog = st.fetchLog ++ nl)
    (h : InvLoc st) : InvLoc st' := by
  obtain ⟨hnd, hiff, hcnt⟩ := h
  obtain ⟨nl, hk, he⟩ := h3
  refine ⟨by rw [h1]; exact hnd, ?_, ?_⟩
  · intro id
    rw [h1, h2]
    exact hiff id
  · intro id
    rw [he, countCalls_append_other _ _ _ _ hk, h1]
    exact hcnt id

theorem InvPract_of_frame (st st' : SlurpState)
    (h1 : st'.practitioners = st.practitioners)
    (h2 : st'.p_to_pr_rows = st.p_to_pr_rows)
    (h3 : ∃ nl, (∀ c ∈ nl, c.kind ≠ EntityKind.pract) ∧
      st'.fetchLog = st.fetchLog ++ nl)
    (h : InvPract st) : InvPract st' := by
  obtain ⟨hnd, hiff, hcnt⟩ := h
  obtain ⟨nl, hk, he⟩ := h3
  refine ⟨by rw [h1]; exact hnd, ?_, ?_⟩
  · intro id
    rw [h1, h2]
    exact hiff id
  · intro id
    rw [he, countCalls_append_other _ _ _ _ hk, h1]
    exact hcnt id

theorem handleOrgRef_InvOrg (b i : String) (env : EntityEnv) (r : String)
    (st : SlurpState) (hOrg : ∀ u, (env.org u).isSome) (h : InvOrg st) :
    InvOrg (handleOrgRef b i env r st) := by
  obtain ⟨hnd, hiff, hcnt⟩ := h
  by_cases hs : strStartsWith r "Organization/"
  · by_cases hmiss : (dictLookup (lastSeg r) st.organizations).isNone
    · obtain ⟨d, hd⟩ := Option.isSome_iff_exists.mp (hOrg (urljoin b r))
      have hnone : dictLookup (lastSeg r) st.organizations = none :=
        Option.isNone_iff_eq_none.mp hmiss
      have heq : handleOrgRef b i env r st =
          { st with
            organizations := st.organizations ++ [(lastSeg r, d)],
            org_to_pr_rows := st.org_to_pr_rows ++
              [⟨urljoin b ("PractitionerRole/" ++ i), urljoin b r, r⟩],
            fetchLog := st.fetchLog ++ [⟨.org, lastSeg r, urljoin b r⟩] } := by
        simp [handleOrgRef, hs, hmiss, hd]
      rw [heq]
      have hnotmem : lastSeg r ∉ st.organizations.map Prod.fst := by
        rw [← dictLookup_isSome_iff_mem, hnone]
        simp
      refine ⟨?_, ?_, ?_⟩
      · simp only [List.map_append, List.map_cons, List.map_nil]
        rw [← List.concat_eq_append]
        exact hnd.concat hnotmem
      · intro id
        simp only [dictLookup_append_single, orgRefIds_append]
        have hsingle : orgRefIds
            [⟨urljoin b ("PractitionerRole/" ++ i), urljoin b r, r⟩] = [lastSeg r] := by
          simp [orgRefIds]
        rw [hsingle]
        cases hl : dictLookup id st.organizations with
        | some w =>
          have hmem : id ∈ orgRefIds st.org_to_pr_rows := (hiff id).mp (by simp [hl])
          simp [hmem]
        | none =>
          have hno : id ∉ orgRefIds st.org_to_pr_rows := fun hmem => by
            simpa [hl] using (hiff id).mpr hmem
          by_cases hid : lastSeg r = id
          · simp [hid, hno]
          · simp [hid, hno, Ne.symm hid]
      · intro id
        rw [countCalls_append, countCalls_single]
        simp only [dictLookup_append_single]
        cases hl : dictLookup id st.organizations with
        | some w =>
          have hne : ¬(lastSeg r = id) := fun hid => by
            rw [hid] at hnone
            rw [hnone] at hl
            exact Option.noConfusion hl
          have := hcnt id
          rw [hl] at this
          simp only [Option.isSome_some, if_true] at this
          simp [this, hne]
        | none =>
          have := hcnt id
          rw [hl] at this
          simp only [Option.isSome_none, Bool.false_eq_true, if_false] at this
          by_cases hid : lastSeg r = id <;> simp [this, hid]
    · have hsome : (dictLookup (lastSeg r) st.organizations).isSome := by
        cases hx : dictLookup (lastSeg r) st.organizations with
        | some w => simp
        | none => rw [hx] at hmiss; simp at hmiss
      have heq : handleOrgRef b i env r st =
          { st with
            org_to_pr_rows := st.org_to_pr_rows ++
              [⟨urljoin b ("PractitionerRole/" ++ i), urljoin b r, r⟩] } := by
        simp [handleOrgRef, hs, hmiss]
      rw [heq]
      refine ⟨hnd, ?_, hcnt⟩
      intro id
      simp only [orgRefIds_append]
      have hsingle : orgRefIds
          [⟨urljoin b ("PractitionerRole/" ++ i), urljoin b r, r⟩] = [lastSeg r] := by
        simp [orgRefIds]
      rw [hsingle]
      constructor
      · intro hl
        exact List.mem_append.mpr (Or.inl ((hiff id).mp hl))
      · intro hmem
        rcases List.mem_append.mp hmem with hmem | hmem
        · exact (hiff id).mpr hmem
        · simp only [List.mem_singleton] at hmem
          rw [hmem]
          exact hsome
  · have heq : handleOrgRef b i env r st = st := by
      simp [handleOrgRef, hs]
    rw [heq]
    exact ⟨hnd, hiff, hcnt⟩

theorem locStep_InvLoc (b i : String) (env : EntityEnv) (st : SlurpState)
    (lro : RefObj) (hLoc : ∀ u, (env.loc u).isSome) (h : InvLoc st) :
    InvLoc (locStep b i env st lro) := by
  obtain ⟨hnd, hiff, hcnt⟩ := h
  set r := lro.reference.getD "" with hr
  by_cases hs : r ≠ "" ∧ strStartsWith r "Location/"
  · by_cases hmiss : (dictLookup (lastSeg r) st.locations).isNone
    · obtain ⟨d, hd⟩ := Option.isSome_iff_exists.mp (hLoc (urljoin b r))
      have hnone : dictLookup (lastSeg r) st.locations = none :=
        Option.isNone_iff_eq_none.mp hmiss
      have heq : locStep b i env st lro =
          { st with
            locations := st.locations ++ [(lastSeg r, d)],
            location_to_pr_rows := st.location_to_pr_rows ++
              [⟨urljoin b ("PractitionerRole/" ++ i), urljoin b r, r⟩],
            fetchLog := st.fetchLog ++ [⟨.loc, lastSeg r, urljoin b r⟩] } := by
        simp only [locStep, ← hr]
        simp [hs, hmiss, hd]
      rw [heq]
      have hnotmem : lastSeg r ∉ st.locations.map Prod.fst := by
        rw [← dictLookup_isSome_iff_mem, hnone]
        simp
      refine ⟨?_, ?_, ?_⟩
      · simp only [List.map_append, List.map_cons, List.map_nil]
        rw [← List.concat_eq_append]
        exact hnd.concat hnotmem
      · intro id
        simp only [dictLookup_append_single, locRefIds_append]
        have hsingle : locRefIds
            [⟨urljoin b ("PractitionerRole/" ++ i), urljoin b r, r⟩] = [lastSeg r] := by
          simp [locRefIds]
        rw [hsingle]
        cases hl : dictLookup id st.locations with
        | some w =>
          have hmem : id ∈ locRefIds st.location_to_pr_rows := (hiff id).mp (by simp [hl])
          simp [hmem]
        | none =>
          have hno : id ∉ locRefIds st.location_to_pr_rows := fun hmem => by
            simpa [hl] using (hiff id).mpr hmem
          by_cases hid : lastSeg r = id
          · simp [hid, hno]
          · simp [hid, hno, Ne.symm hid]
      · intro id
        rw [countCalls_append, countCalls_single]
        simp only [dictLookup_append_single]
        cases hl : dictLookup id st.locations with
        | some w =>
          have hne : ¬(lastSeg r = id) := fun hid => by
            rw [hid] at hnone
            rw [hnone] at hl
            exact Option.noConfusion hl
          have := hcnt id
          rw [hl] at this
          simp only [Option.isSome_some, if_true] at this
          simp [this, hne]
        | none =>
          have := hcnt id
          rw [hl] at this
          simp only [Option.isSome_none, Bool.false_eq_true, if_false] at this
          by_cases hid : lastSeg r = id <;> simp [this, hid]
    · have hsome : (dictLookup (lastSeg r) st.locations).isSome := by
        cases hx : dictLookup (lastSeg r) st.locations with
        | some w => simp
        | none => rw [hx] at hmiss; simp at hmiss
      have heq : locStep b i env st lro =
          { st with
            location_to_pr_rows := st.location_to_pr_rows ++
              [⟨urljoin b ("PractitionerRole/" ++ i), urljoin b r, r⟩] } := by
        simp only [locStep, ← hr]
        simp [hs, hmiss]
      rw [heq]
      refine ⟨hnd, ?_, hcnt⟩
      intro id
      simp only [locRefIds_append]
      have hsingle : locRefIds
          [⟨urljoin b ("PractitionerRole/" ++ i), urljoin b r, r⟩] = [lastSeg r] := by
        simp [locRefIds]
      rw [hsingle]
      constructor
      · intro hl
        exact List.mem_append.mpr (Or.inl ((hiff id).mp hl))
      · intro hmem
        rcases List.mem_append.mp hmem with hmem | hmem
        · exact (hiff id).mpr hmem
        · simp only [List.mem_singleton] at hmem
          rw [hmem]
          exact hsome
  · have heq : locStep b i env st lro = st := by
      simp only [locStep, ← hr]
      simp [hs]
    rw [heq]
    exact ⟨hnd, hiff, hcnt⟩

theorem processPractitioner_InvPract (b i : String) (env : EntityEnv)
    (r : String) (st : SlurpState) (hPract : ∀ u, (env.pract u).isSome)
    (h : InvPract st) : InvPract (processPractitioner b i env r st) := by
  obtain ⟨hnd, hiff, hcnt⟩ := h
  by_cases hs : r ≠ "" ∧ strStartsWith r "Practitioner/"
  · by_cases hmiss : (dictLookup (lastSeg r) st.practitioners).isNone
    · obtain ⟨d, hd⟩ := Option.isSome_iff_exists.mp (hPract (urljoin b r))
      have hnone : dictLookup (lastSeg r) st.practitioners = none :=
        Option.isNone_iff_eq_none.mp hmiss
      obtain ⟨row, hrow, heq⟩ : ∃ row : PToPrRow, row.practitioner_reference = r ∧
          processPractitioner b i env r st =
          { st with
            practitioners := st.practitioners ++ [(lastSeg r, d)],
            p_to_pr_rows := st.p_to_pr_rows ++ [row],
            fetchLog := st.fetchLog ++ [⟨.pract, lastSeg r, urljoin b r⟩] } := by
        refine ⟨⟨urljoin b ("PractitionerRole/" ++ i), urljoin b r, r,
          extract_npi_from_practitioner
            (dictLookup (lastSeg r) (st.practitioners ++ [(lastSeg r, d)])), "?",
          (extract_practitioner_name
            (dictLookup (lastSeg r) (st.practitioners ++ [(lastSeg r, d)]))).1,
          (extract_practitioner_name
            (dictLookup (lastSeg r) (st.practitioners ++ [(lastSeg r, d)]))).2⟩,
          rfl, ?_⟩
        simp [processPractitioner, hs, hmiss, hd]
      rw [heq]
      have hnotmem : lastSeg r ∉ st.practitioners.map Prod.fst := by
        rw [← dictLookup_isSome_iff_mem, hnone]
        simp
      refine ⟨?_, ?_, ?_⟩
      · simp only [List.map_append, List.map_cons, List.map_nil]
        rw [← List.concat_eq_append]
        exact hnd.concat hnotmem
      · intro id
        simp only [dictLookup_append_single, practRefIds_append]
        have hsingle : practRefIds [row] = [lastSeg r] := by
          simp [practRefIds, hrow]
        rw [hsingle]
        cases hl : dictLookup id st.practitioners with
        | some w =>
          have hmem : id ∈ practRefIds st.p_to_pr_rows := (hiff id).mp (by simp [hl])
          simp [hmem]
        | none =>
          have hno : id ∉ practRefIds st.p_to_pr_rows := fun hmem => by
            simpa [hl] using (hiff id).mpr hmem
          by_cases hid : lastSeg r = id
          · simp [hid, hno]
          · simp [hid, hno, Ne.symm hid]
      · intro id
        rw [countCalls_append, countCalls_single]
        simp only [dictLookup_append_single]
        cases hl : dictLookup id st.practitioners with
        | some w =>
          have hne : ¬(lastSeg r = id) := fun hid => by
            rw [hid] at hnone
            rw [hnone] at hl
            exact Option.noConfusion hl
          have := hcnt id
          rw [hl] at this
          simp only [Option.isSome_some, if_true] at this
          simp [this, hne]
        | none =>
          have := hcnt id
          rw [hl] at this
          simp only [Option.isSome_none, Bool.false_eq_true, if_false] at this
          by_cases hid : lastSeg r = id <;> simp [this, hid]
    · have hsome : (dictLookup (lastSeg r) st.practitioners).isSome := by
        cases hx : dictLookup (lastSeg r) st.practitioners with
        | some w => simp
        | none => rw [hx] at hmiss; simp at hmiss
      obtain ⟨row, hrow, heq⟩ : ∃ row : PToPrRow, row.practitioner_reference = r ∧
          processPractitioner b i env r st =
          { st with p_to_pr_rows := st.p_to_pr_rows ++ [row] } := by
        refine ⟨⟨urljoin b ("PractitionerRole/" ++ i), urljoin b r, r,
          extract_npi_from_practitioner (dictLookup (lastSeg r) st.practitioners), "?",
          (extract_practitioner_name (dictLookup (lastSeg r) st.practitioners)).1,
          (extract_practitioner_name (dictLookup (lastSeg r) st.practitioners)).2⟩,
          rfl, ?_⟩
        simp [processPractitioner, hs, hmiss]
      rw [heq]
      refine ⟨hnd, ?_, hcnt⟩
      intro id
      simp only [practRefIds_append]
      have hsingle : practRefIds [row] = [lastSeg r] := by
        simp [practRefIds, hrow]
      rw [hsingle]
      constructor
      · intro hl
        exact List.mem_append.mpr (Or.inl ((hiff id).mp hl))
      · intro hmem
        rcases List.mem_append.mp hmem with hmem | hmem
        · exact (hiff id).mpr hmem
        · simp only [List.mem_singleton] at hmem
          rw [hmem]
          exact hsome
  · have heq : processPractitioner b i env r st = st := by
      simp [processPractitioner, hs]
    rw [heq]
    exact ⟨hnd, hiff, hcnt⟩

theorem processExtensions_InvOrg (b i : String) (env : EntityEnv)
    (exts : List Extension) (st : SlurpState) (hOrg : ∀ u, (env.org u).isSome)
    (h : InvOrg st) : InvOrg (processExtensions b i env exts st) := by
  induction exts generalizing st with
  | nil => simpa [processExtensions] using h
  | cons e rest ih =>
    simp only [processExtensions, List.foldl_cons] at ih ⊢
    split
    · exact ih _ (handleOrgRef_InvOrg _ _ _ _ _ hOrg h)
    · exact ih _ h

theorem processLocations_InvLoc (b i : String) (env : EntityEnv)
    (locs : List RefObj) (st : SlurpState) (hLoc : ∀ u, (env.loc u).isSome)
    (h : InvLoc st) : InvLoc (processLocations b i env locs st) := by
  induction locs generalizing st with
  | nil => simpa [processLocations] using h
  | cons e rest ih =>
    simp only [processLocations, List.foldl_cons] at ih ⊢
    exact ih _ (locStep_InvLoc _ _ _ _ _ hLoc h)

theorem InvOrg_processPractitioner (b i : String) (env : EntityEnv)
    (r : String) (st : SlurpState) (h : InvOrg st) :
    InvOrg (processPractitioner b i env r st) := by
  obtain ⟨f1, f2, _, _, _, _⟩ := processPractitioner_frame b i env r st
  obtain ⟨nl, hk, he⟩ := processPractitioner_fetchLog b i env r st
  exact InvOrg_of_frame st _ f1 f2
    ⟨nl, fun c hc => by rw [hk c hc]; exact fun hco => EntityKind.noConfusion hco, he⟩ h

theorem InvOrg_processLocations (b i : String) (env : EntityEnv)
    (locs : List RefObj) (st : SlurpState) (h : InvOrg st) :
    InvOrg (processLocations b i env locs st) := by
  obtain ⟨f1, f2, _, _, _, _⟩ := processLocations_frame b i env locs st
  obtain ⟨nl, hk, he⟩ := processLocations_fetchLog b i env locs st
  exact InvOrg_of_frame st _ f1 f2
    ⟨nl, fun c hc => by rw [hk c hc]; exact fun hco => EntityKind.noConfusion hco, he⟩ h

theorem InvOrg_processSpecialties (b i : String) (specs : List CodeableConcept)
    (st : SlurpState) (h : InvOrg st) :
    InvOrg (processSpecialties b i specs st) := by
  obtain ⟨f1, f2, _, _, _, _, _, f8⟩ := processSpecialties_frame b i specs st
  exact InvOrg_of_frame st _ f1 f2 ⟨[], by simp, by simp [f8]⟩ h

theorem InvOrg_processTelecoms (b i : String) (teles : List Telecom)
    (st : SlurpState) (h : InvOrg st) :
    InvOrg (processTelecoms b i teles st) := by
  obtain ⟨f1, f2, _, _, _, _, _, f8⟩ := processTelecoms_frame b i teles st
  exact InvOrg_of_frame st _ f1 f2 ⟨[], by simp, by simp [f8]⟩ h

theorem InvLoc_handleOrgRef (b i : String) (env : EntityEnv) (r : String)
    (st : SlurpState) (h : InvLoc st) : InvLoc (handleOrgRef b i env r st) := by
  obtain ⟨f1, f2, _, _, _, _⟩ := handleOrgRef_frame b i env r st
  obtain ⟨nl, hk, he⟩ := handleOrgRef_fetchLog b i env r st
  exact InvLoc_of_frame st _ f1 f2
    ⟨nl, fun c hc => by rw [hk c hc]; exact fun hco => EntityKind.noConfusion hco, he⟩ h

theorem InvLoc_processExtensions (b i : String) (env : EntityEnv)
    (exts : List Extension) (st : SlurpState) (h : InvLoc st) :
    InvLoc (processExtensions b i env exts st) := by
  obtain ⟨f1, f2, _, _, _, _⟩ := processExtensions_frame b i env exts st
  obtain ⟨nl, hk, he⟩ := processExtensions_fetchLog b i env exts st
  exact InvLoc_of_frame st _ f1 f2
    ⟨nl, fun c hc => by rw [hk c hc]; exact fun hco => EntityKind.noConfusion hco, he⟩ h

theorem InvLoc_processPractitioner (b i : String) (env : EntityEnv)
    (r : String) (st : SlurpState) (h : InvLoc st) :
    InvLoc (processPractitioner b i env r st) := by
  obtain ⟨_, _, f3, f4, _, _⟩ := processPractitioner_frame b i env r st
  obtain ⟨nl, hk, he⟩ := processPractitioner_fetchLog b i env r st
  exact InvLoc_of_frame st _ f3 f4
    ⟨nl, fun c hc => by rw [hk c hc]; exact fun hco => EntityKind.noConfusion hco, he⟩ h

theorem InvLoc_processSpecialties (b i : String) (specs : List CodeableConcept)
    (st : SlurpState) (h : InvLoc st) :
    InvLoc (processSpecialties b i specs st) := by
  obtain ⟨_, _, f3, f4, _, _, _, f8⟩ := processSpecialties_frame b i specs st
  exact InvLoc_of_frame st _ f3 f4 ⟨[], by simp, by simp [f8]⟩ h

theorem InvLoc_processTelecoms (b i : String) (teles : List Telecom)
    (st : SlurpState) (h : InvLoc st) :
    InvLoc (processTelecoms b i teles st) := by
  obtain ⟨_, _, f3, f4, _, _, _, f8⟩ := processTelecoms_frame b i teles st
  exact InvLoc_of_frame st _ f3 f4 ⟨[], by simp, by simp [f8]⟩ h

theorem InvPract_handleOrgRef (b i : String) (env : EntityEnv) (r : String)
    (st : SlurpState) (h : InvPract st) : InvPract (handleOrgRef b i env r st) := by
  obtain ⟨_, _, f3, f4, _, _⟩ := handleOrgRef_frame b i env r st
  obtain ⟨nl, hk, he⟩ := handleOrgRef_fetchLog b i env r st
  exact InvPract_of_frame st _ f3 f4
    ⟨nl, fun c hc => by rw [hk c hc]; exact fun hco => EntityKind.noConfusion hco, he⟩ h

theorem InvPract_processExtensions (b i : String) (env : EntityEnv)
    (exts : List Extension) (st : SlurpState) (h : InvPract st) :
    InvPract (processExtensions b i env exts st) := by
  obtain ⟨_, _, f3, f4, _, _⟩ := processExtensions_frame b i env exts st
  obtain ⟨nl, hk, he⟩ := processExtensions_fetchLog b i env exts st
  exact InvPract_of_frame st _ f3 f4
    ⟨nl, fun c hc => by rw [hk c hc]; exact fun hco => EntityKind.noConfusion hco, he⟩ h

theorem InvPract_processLocations (b i : String) (env : EntityEnv)
    (locs : List RefObj) (st : SlurpState) (h : InvPract st) :
    InvPract (processLocations b i env locs st) := by
  obtain ⟨_, _, f3, f4, _, _⟩ := processLocations_frame b i env locs st
  obtain ⟨nl, hk, he⟩ := processLocations_fetchLog b i env locs st
  exact InvPract_of_frame st _ f3 f4
    ⟨nl, fun c hc => by rw [hk c hc]; exact fun hco => EntityKind.noConfusion hco, he⟩ h

theorem InvPract_processSpecialties (b i : String) (specs : List CodeableConcept)
    (st : SlurpState) (h : InvPract st) :
    InvPract (processSpecialties b i specs st) := by
  obtain ⟨_, _, _, _, f5, f6, _, f8⟩ := processSpecialties_frame b i specs st
  exact InvPract_of_frame st _ f5 f6 ⟨[], by simp, by simp [f8]⟩ h

theorem InvPract_processTelecoms (b i : String) (teles : List Telecom)
    (st : SlurpState) (h : InvPract st) :
    InvPract (processTelecoms b i teles st) := by
  obtain ⟨_, _, _, _, f5, f6, _, f8⟩ := processTelecoms_frame b i teles st
  exact InvPract_of_frame st _ f5 f6 ⟨[], by simp, by simp [f8]⟩ h

theorem processRecord_InvOrg (b : String) (env : EntityEnv) (st : SlurpState)
    (pr : PractitionerRole) (hOrg : ∀ u, (env.org u).isSome) (h : InvOrg st) :
    InvOrg (processRecord b env st pr) := by
  simp only [processRecord]
  exact InvOrg_processTelecoms _ _ _ _
    (InvOrg_processSpecialties _ _ _ _
      (InvOrg_processLocations _ _ _ _ _
        (InvOrg_processPractitioner _ _ _ _ _
          (handleOrgRef_InvOrg _ _ _ _ _ hOrg
            (processExtensions_InvOrg _ _ _ _ _ hOrg h)))))

theorem processRecord_InvLoc (b : String) (env : EntityEnv) (st : SlurpState)
    (pr : PractitionerRole) (hLoc : ∀ u, (env.loc u).isSome) (h : InvLoc st) :
    InvLoc (processRecord b env st pr) := by
  simp only [processRecord]
  exact InvLoc_processTelecoms _ _ _ _
    (InvLoc_processSpecialties _ _ _ _
      (processLocations_InvLoc _ _ _ _ _ hLoc
        (InvLoc_processPractitioner _ _ _ _ _
          (InvLoc_handleOrgRef _ _ _ _ _
            (InvLoc_processExtensions _ _ _ _ _ h)))))

theorem processRecord_InvPract (b : String) (env : EntityEnv) (st : SlurpState)
    (pr : PractitionerRole) (hPract : ∀ u, (env.pract u).isSome)
    (h : InvPract st) : InvPract (processRecord b env st pr) := by
  simp only [processRecord]
  exact InvPract_processTelecoms _ _ _ _
    (InvPract_processSpecialties _ _ _ _
      (InvPract_processLocations _ _ _ _ _
        (processPractitioner_InvPract _ _ _ _ _ hPract
          (InvPract_handleOrgRef _ _ _ _ _
            (InvPract_processExtensions _ _ _ _ _ h)))))

/-- Run-level invariant for the organization cache: folding any record
list from the empty initial state under an environment where every
organization fetch succeeds preserves `InvOrg`. -/
theorem foldl_InvOrg (b : String) (env : EntityEnv)
    (prs : List PractitionerRole) (hOrg : ∀ u, (env.org u).isSome) :
    InvOrg (prs.foldl (processRecord b env) initState) := by
  suffices hgen : ∀ st : SlurpState, InvOrg st →
      InvOrg (prs.foldl (processRecord b env) st) by
    exact hgen initState initState_invariants.1
  induction prs with
  | nil => exact fun st h => h
  | cons pr rest ih =>
    intro st h
    simp only [List.foldl_cons]
    exact ih _ (processRecord_InvOrg _ _ _ _ hOrg h)

/-- Run-level invariant for the location cache. -/
theorem foldl_InvLoc (b : String) (env : EntityEnv)
    (prs : List PractitionerRole) (hLoc : ∀ u, (env.loc u).isSome) :
    InvLoc (prs.foldl (processRecord b env) initState) := by
  suffices hgen : ∀ st : SlurpState, InvLoc st →
      InvLoc (prs.foldl (processRecord b env) st) by
    exact hgen initState initState_invariants.2.1
  induction prs with
  | nil => exact fun st h => h
  | cons pr rest ih =>
    intro st h
    simp only [List.foldl_cons]
    exact ih _ (processRecord_InvLoc _ _ _ _ hLoc h)

/-- Run-level invariant for the practitioner cache. -/
theorem foldl_InvPract (b : String) (env : EntityEnv)
    (prs : List PractitionerRole) (hPract : ∀ u, (env.pract u).isSome) :
    InvPract (prs.foldl (processRecord b env) initState) := by
  suffices hgen : ∀ st : SlurpState, InvPract st →
      InvPract (prs.foldl (processRecord b env) st) by
    exact hgen initState initState_invariants.2.2
  induction prs with
  | nil => exact fun st h => h
  | cons pr rest ih =>
    intro st h
    simp only [List.foldl_cons]
    exact ih _ (processRecord_InvPract _ _ _ _ hPract h)

/-! ## The caches store only successfully fetched values -/

theorem handleOrgRef_cachedOrg (b i : String) (env : EntityEnv) (r : String)
    (st : SlurpState)
    (h : ∀ pr ∈ st.organizations, ∃ u, env.org u = some pr.2) :
    ∀ pr ∈ (handleOrgRef b i env r st).organizations, ∃ u, env.org u = some pr.2 := by
  by_cases hs : strStartsWith r "Organization/"
  · by_cases hmiss : (dictLookup (lastSeg r) st.organizations).isNone
    · cases henv : env.org (urljoin b r) with
      | some d =>
        have heq : (handleOrgRef b i env r st).organizations =
            st.organizations ++ [(lastSeg r, d)] := by
          simp [handleOrgRef, hs, hmiss, henv]
        rw [heq]
        intro pr hpr
        rcases List.mem_append.mp hpr with hm | hm
        · exact h pr hm
        · simp only [List.mem_singleton] at hm
          subst hm
          exact ⟨urljoin b r, henv⟩
      | none =>
        have heq : (handleOrgRef b i env r st).organizations = st.organizations := by
          simp [handleOrgRef, hs, hmiss, henv]
        rw [heq]
        exact h
    · have heq : (handleOrgRef b i env r st).organizations = st.organizations := by
        simp [handleOrgRef, hs, hmiss]
      rw [heq]
      exact h
  · have heq : (handleOrgRef b i env r st).organizations = st.organizations := by
      simp [handleOrgRef, hs]
    rw [heq]
    exact h

theorem locStep_cachedLoc (b i : String) (env : EntityEnv) (st : SlurpState)
    (lro : RefObj)
    (h : ∀ pr ∈ st.locations, ∃ u, env.loc u = some pr.2) :
    ∀ pr ∈ (locStep b i env st lro).locations, ∃ u, env.loc u = some pr.2 := by
  set r := lro.reference.getD "" with hr
  by_cases hs : r ≠ "" ∧ strStartsWith r "Location/"
  · by_cases hmiss : (dictLookup (lastSeg r) st.locations).isNone
    · cases henv : env.loc (urljoin b r) with
      | some d =>
        have heq : (locStep b i env st lro).locations =
            st.locations ++ [(lastSeg r, d)] := by
          simp only [locStep, ← hr]
          simp [hs, hmiss, henv]
        rw [heq]
        intro pr hpr
        rcases List.mem_append.mp hpr with hm | hm
        · exact h pr hm
        · simp only [List.mem_singleton] at hm
          subst hm
          exact ⟨urljoin b r, henv⟩
      | none =>
        have heq : (locStep b i env st lro).locations = st.locations := by
          simp only [locStep, ← hr]
          simp [hs, hmiss, henv]
        rw [heq]
        exact h
    · have heq : (locStep b i env st lro).locations = st.locations := by
        simp only [locStep, ← hr]
        simp [hs, hmiss]
      rw [heq]
      exact h
  · have heq : (locStep b i env st lro).locations = st.locations := by
      simp only [locStep, ← hr]
      simp [hs]
    rw [heq]
    exact h

theorem processPractitioner_cachedPract (b i : String) (env : EntityEnv)
    (r : String) (st : SlurpState)
    (h : ∀ pr ∈ st.practitioners, ∃ u, env.pract u = some pr.2) :
    ∀ pr ∈ (processPractitioner b i env r st).practitioners,
      ∃ u, env.pract u = some pr.2 := by
  by_cases hs : r ≠ "" ∧ strStartsWith r "Practitioner/"
  · by_cases hmiss : (dictLookup (lastSeg r) st.practitioners).isNone
    · cases henv : env.pract (urljoin b r) with
      | some d =>
        have heq : (processPractitioner b i env r st).practitioners =
            st.practitioners ++ [(lastSeg r, d)] := by
          simp [processPractitioner, hs, hmiss, henv]
        rw [heq]
        intro pr hpr
        rcases List.mem_append.mp hpr with hm | hm
        · exact h pr hm
        · simp only [List.mem_singleton] at hm
          subst hm
          exact ⟨urljoin b r, henv⟩
      | none =>
        have heq : (processPractitioner b i env r st).practitioners =
            st.practitioners := by
          simp [processPractitioner, hs, hmiss, henv]
        rw [heq]
        exact h
    · have heq : (processPractitioner b i env r st).practitioners =
          st.practitioners := by
        simp [processPractitioner, hs, hmiss]
      rw [heq]
      exact h
  · have heq : (processPractitioner b i env r st).practitioners =
        st.practitioners := by
      simp [processPractitioner, hs]
    rw [heq]
    exact h

theorem cached_processExtensions (b i : String) (env : EntityEnv)
    (exts : List Extension) (st : SlurpState) (h : CachedOnSuccess env st) :
    CachedOnSuccess env (processExtensions b i env exts st) := by
  induction exts generalizing st with
  | nil => simpa [processExtensions] using h
  | cons e rest ih =>
    simp only [processExtensions, List.foldl_cons] at ih ⊢
    obtain ⟨ho, hl, hp⟩ := h
    split
    · refine ih _ ⟨handleOrgRef_cachedOrg _ _ _ _ _ ho, ?_, ?_⟩
      · rw [(handleOrgRef_frame b i env (refString e.valueReference) st).1]
        exact hl
      · rw [(handleOrgRef_frame b i env (refString e.valueReference) st).2.2.1]
        exact hp
    · exact ih _ ⟨ho, hl, hp⟩

theorem cached_handleOrgRef (b i : String) (env : EntityEnv) (r : String)
    (st : SlurpState) (h : CachedOnSuccess env st) :
    CachedOnSuccess env (handleOrgRef b i env r st) := by
  obtain ⟨ho, hl, hp⟩ := h
  refine ⟨handleOrgRef_cachedOrg _ _ _ _ _ ho, ?_, ?_⟩
  · rw [(handleOrgRef_frame b i env r st).1]
    exact hl
  · rw [(handleOrgRef_frame b i env r st).2.2.1]
    exact hp

theorem cached_processPractitioner (b i : String) (env : EntityEnv) (r : String)
    (st : SlurpState) (h : CachedOnSuccess env st) :
    CachedOnSuccess env (processPractitioner b i env r st) := by
  obtain ⟨ho, hl, hp⟩ := h
  refine ⟨?_, ?_, processPractitioner_cachedPract _ _ _ _ _ hp⟩
  · rw [(processPractitioner_frame b i env r st).1]
    exact ho
  · rw [(processPractitioner_frame b i env r st).2.2.1]
    exact hl

theorem cached_processLocations (b i : String) (env : EntityEnv)
    (locs : List RefObj) (st : SlurpState) (h : CachedOnSuccess env st) :
    CachedOnSuccess env (processLocations b i env locs st) := by
  induction locs generalizing st with
  | nil => simpa [processLocations] using h
  | cons e rest ih =>
    simp only [processLocations, List.foldl_cons] at ih ⊢
    obtain ⟨ho, hl, hp⟩ := h
    refine ih _ ⟨?_, locStep_cachedLoc _ _ _ _ _ hl, ?_⟩
    · rw [(locStep_frame b i env st e).1]
      exact ho
    · rw [(locStep_frame b i env st e).2.2.1]
      exact hp

theorem cached_processSpecialties (b i : String) (specs : List CodeableConcept)
    (st : SlurpState) (env : EntityEnv) (h : CachedOnSuccess env st) :
    CachedOnSuccess env (processSpecialties b i specs st) := by
  obtain ⟨ho, hl, hp⟩ := h
  refine ⟨?_, ?_, ?_⟩
  · rw [(processSpecialties_frame b i specs st).1]
    exact ho
  · rw [(processSpecialties_frame b i specs st).2.2.1]
    exact hl
  · rw [(processSpecialties_frame b i specs st).2.2.2.2.1]
    exact hp

theorem cached_processTelecoms (b i : String) (teles : List Telecom)
    (st : SlurpState) (env : EntityEnv) (h : CachedOnSuccess env st) :
    CachedOnSuccess env (processTelecoms b i teles st) := by
  obtain ⟨ho, hl, hp⟩ := h
  refine ⟨?_, ?_, ?_⟩
  · rw [(processTelecoms_frame b i teles st).1]
    exact ho
  · rw [(processTelecoms_frame b i teles st).2.2.1]
    exact hl
  · rw [(processTelecoms_frame b i teles st).2.2.2.2.1]
    exact hp

theorem processRecord_cached (b : String) (env : EntityEnv) (st : SlurpState)
    (pr : PractitionerRole) (h : CachedOnSuccess env st) :
    CachedOnSuccess env (processRecord b env st pr) := by
  simp only [processRecord]
  exact cached_processTelecoms _ _ _ _ _
    (cached_processSpecialties _ _ _ _ _
      (cached_processLocations _ _ _ _ _
        (cached_processPractitioner _ _ _ _ _
          (cached_handleOrgRef _ _ _ _ _
            (cached_processExtensions _ _ _ _ _ h)))))

theorem foldl_cached (b : String) (env : EntityEnv)
    (prs : List PractitionerRole) :
    CachedOnSuccess env (prs.foldl (processRecord b env) initState) := by
  suffices hgen : ∀ st : SlurpState, CachedOnSuccess env st →
      CachedOnSuccess env (prs.foldl (processRecord b env) st) by
    exact hgen initState ⟨by simp [initState], by simp [initState], by simp [initState]⟩
  induction prs with
  | nil => exact fun st h => h
  | cons pr rest ih =>
    intro st h
    simp only [List.foldl_cons]
    exact ih _ (processRecord_cached _ _ _ _ h)

/-! ## Writer lemmas -/

theorem strAppend_right_inj (s a b : String) (h : s ++ a = s ++ b) : a = b := by
  apply String.ext
  have hd := congrArg String.data h
  rw [String.data_append, String.data_append] at hd
  exact List.append_cancel_left hd

/-- Evaluating the write phase at each of the seven output paths: every
file is replaced with exactly its table (header plus data rows when the
table has rows, an empty file otherwise), independent of the previous
filesystem contents. -/
theorem writeOutputs_eval (dir base : String) (st : SlurpState) (fs : FS) :
    writeOutputs dir base st fs (dir ++ "/org_to_pr.csv") =
      some (mkTable orgToPrHeader (st.org_to_pr_rows.map OrgToPrRow.toRow)) ∧
    writeOutputs dir base st fs (dir ++ "/org.csv") =
      some (mkTable orgHeader (orgRows base st.organizations)) ∧
    writeOutputs dir base st fs (dir ++ "/location_to_pr.csv") =
      some (mkTable locToPrHeader (st.location_to_pr_rows.map LocToPrRow.toRow)) ∧
    writeOutputs dir base st fs (dir ++ "/location.csv") =
      some (mkTable locHeader (locationRows base st.locations)) ∧
    writeOutputs dir base st fs (dir ++ "/p_to_pr.csv") =
      some (mkTable pToPrHeader (st.p_to_pr_rows.map PToPrRow.toRow)) ∧
    writeOutputs dir base st fs (dir ++ "/spec_to_pr.csv") =
      some (mkTable specHeader (st.spec_to_pr_rows.map SpecToPrRow.toRow)) ∧
    writeOutputs dir base st fs (dir ++ "/tele_to_pr.csv") =
      some (mkTable teleHeader (st.tele_to_pr_rows.map TeleToPrRow.toRow)) := by
  have hne : ∀ a b : String, a ≠ b → dir ++ a ≠ dir ++ b :=
    fun a b hab hc => hab (strAppend_right_inj _ _ _ hc)
  refine ⟨?_, ?_, ?_, ?_, ?_, ?_, ?_⟩ <;> simp only [writeOutputs, writeTable]
  · rw [if_neg (hne _ _ (by decide)), if_neg (hne _ _ (by decide)),
      if_neg (hne _ _ (by decide)), if_neg (hne _ _ (by decide)),
      if_neg (hne _ _ (by decide)), if_neg (hne _ _ (by decide))]
    simp
  · rw [if_neg (hne _ _ (by decide)), if_neg (hne _ _ (by decide)),
      if_neg (hne _ _ (by decide)), if_neg (hne _ _ (by decide)),
      if_neg (hne _ _ (by decide))]
    simp
  · rw [if_neg (hne _ _ (by decide)), if_neg (hne _ _ (by decide)),
      if_neg (hne _ _ (by decide)), if_neg (hne _ _ (by decide))]
    simp
  · rw [if_neg (hne _ _ (by decide)), if_neg (hne _ _ (by decide)),
      if_neg (hne _ _ (by decide))]
    simp
  · rw [if_neg (hne _ _ (by decide)), if_neg (hne _ _ (by decide))]
    simp
  · rw [if_neg (hne _ _ (by decide))]
    simp
  · simp

/-- The write phase touches nothing outside the seven output paths. -/
theorem writeOutputs_ne (dir base : String) (st : SlurpState) (fs : FS)
    (p : String) (hp : p ∉ outputPaths dir) :
    writeOutputs dir base st fs p = fs p := by
  simp only [writeOutputs, writeTable]
  rw [if_neg (fun hc => hp (by rw [hc]; simp [outputPaths])),
    if_neg (fun hc => hp (by rw [hc]; simp [outputPaths])),
    if_neg (fun hc => hp (by rw [hc]; simp [outputPaths])),
    if_neg (fun hc => hp (by rw [hc]; simp [outputPaths])),
    if_neg (fun hc => hp (by rw [hc]; simp [outputPaths])),
    if_neg (fun hc => hp (by rw [hc]; simp [outputPaths])),
    if_neg (fun hc => hp (by rw [hc]; simp [outputPaths]))]

/-- Writing the same tables twice is the same as writing them once. -/
theorem writeOutputs_idem (dir base : String) (st : SlurpState) (fs : FS) :
    writeOutputs dir base st (writeOutputs dir base st fs) =
      writeOutputs dir base st fs := by
  funext p
  by_cases hp : p ∈ outputPaths dir
  · simp only [outputPaths, List.mem_cons, List.mem_singleton,
      List.not_mem_nil, or_false] at hp
    rcases hp with hp | hp | hp | hp | hp | hp | hp <;> subst hp
    · rw [(writeOutputs_eval dir base st (writeOutputs dir base st fs)).1,
        (writeOutputs_eval dir base st fs).1]
    · rw [(writeOutputs_eval dir base st (writeOutputs dir base st fs)).2.1,
        (writeOutputs_eval dir base st fs).2.1]
    · rw [(writeOutputs_eval dir base st (writeOutputs dir base st fs)).2.2.1,
        (writeOutputs_eval dir base st fs).2.2.1]
    · rw [(writeOutputs_eval dir base st (writeOutputs dir base st fs)).2.2.2.1,
        (writeOutputs_eval dir base st fs).2.2.2.1]
    · rw [(writeOutputs_eval dir base st (writeOutputs dir base st fs)).2.2.2.2.1,
        (writeOutputs_eval dir base st fs).2.2.2.2.1]
    · rw [(writeOutputs_eval dir base st (writeOutputs dir base st fs)).2.2.2.2.2.1,
        (writeOutputs_eval dir base st fs).2.2.2.2.2.1]
    · rw [(writeOutputs_eval dir base st (writeOutputs dir base st fs)).2.2.2.2.2.2,
        (writeOutputs_eval dir base st fs).2.2.2.2.2.2]
  · rw [writeOutputs_ne dir base st _ p hp, writeOutputs_ne dir base st fs p hp]

/-! ## Paginator lemmas -/

theorem collectEntries_cap (tl : Nat) (acc : List PractitionerRole)
    (es : List BundleEntry) (h : acc.length < tl) :
    (collectEntries true tl acc es).length ≤ tl := by
  induction es generalizing acc with
  | nil => simpa [collectEntries] using Nat.le_of_lt h
  | cons e rest ih =>
    rw [collectEntries]
    cases he : e.resource with
    | none => exact ih acc h
    | some r =>
      by_cases hty : r.resourceType = some "PractitionerRole"
      · simp only [hty, if_true]
        split
        next hcap =>
          obtain ⟨-, h2⟩ := hcap
          simp only [List.length_append, List.length_singleton] at h2 ⊢
          omega
        next hcap =>
          apply ih
          simp only [true_and, not_le, List.length_append,
            List.length_singleton] at hcap
          simp only [List.length_append, List.length_singleton]
          omega
      · simp only [hty, if_false]
        exact ih acc h

theorem fetchPagesLoop_cap (pageEnv : String → Option Bundle) (tl : Nat) :
    ∀ (fuel : Nat) (nu : Option String) (acc : List PractitionerRole)
      (log : List (String × Nat)),
    acc.length < tl → (∀ p ∈ log, p.2 < tl) →
    (fetchPagesLoop pageEnv true tl fuel nu acc log).1.length ≤ tl ∧
    (∀ p ∈ (fetchPagesLoop pageEnv true tl fuel nu acc log).2, p.2 < tl) := by
  intro fuel
  induction fuel with
  | zero =>
    intro nu acc log hacc hlog
    exact ⟨Nat.le_of_lt hacc, hlog⟩
  | succ n ih =>
    intro nu acc log hacc hlog
    cases nu with
    | none => exact ⟨Nat.le_of_lt hacc, hlog⟩
    | some url =>
      rw [fetchPagesLoop]
      have hlog2 : ∀ p ∈ log ++ [(url, acc.length)], p.2 < tl := by
        intro p hp
        rcases List.mem_append.mp hp with hm | hm
        · exact hlog p hm
        · simp only [List.mem_singleton] at hm
          subst hm
          exact hacc
      split
      · exact ⟨Nat.le_of_lt hacc, hlog2⟩
      · next hb =>
          rename_i bundle
          dsimp only
          split
          next hcap =>
            exact ⟨collectEntries_cap tl acc bundle.entry hacc, hlog2⟩
          next hcap =>
            apply ih
            · simp only [eq_self_iff_true, true_and, not_le] at hcap
              exact hcap
            · exact hlog2

/-! ## Retry-loop lemmas -/

theorem fetchFrom_spec {α : Type} (outcomes : List (Option α)) :
    ∀ a : Nat,
    a ≤ (fetchFrom a outcomes).attempts ∧
    (fetchFrom a outcomes).attempts ≤ a + outcomes.length ∧
    (outcomes ≠ [] → a + 1 ≤ (fetchFrom a outcomes).attempts) ∧
    (fetchFrom a outcomes).sleeps =
      (List.range' a ((fetchFrom a outcomes).attempts - 1 - a)).map (2 ^ ·) := by
  induction outcomes with
  | nil =>
    intro a
    simp [fetchFrom]
  | cons o rest ih =>
    intro a
    cases o with
    | some r =>
      refine ⟨by simp [fetchFrom], by simp [fetchFrom], by simp [fetchFrom], ?_⟩
      simp [fetchFrom]
    | none =>
      by_cases hrest : rest.isEmpty
      · have : rest = [] := List.isEmpty_iff.mp hrest
        subst this
        refine ⟨by simp [fetchFrom], by simp [fetchFrom], by simp [fetchFrom], ?_⟩
        simp [fetchFrom]
      · have hne : rest ≠ [] := fun hc => hrest (by simp [hc])
        obtain ⟨h1, h2, h3, h4⟩ := ih (a + 1)
        have hstep : fetchFrom a (none :: rest) =
            ⟨(fetchFrom (a + 1) rest).result,
              2 ^ a :: (fetchFrom (a + 1) rest).sleeps,
              (fetchFrom (a + 1) rest).attempts⟩ := by
          rw [fetchFrom]
          simp [hrest]
        rw [hstep]
        have hat : a + 2 ≤ (fetchFrom (a + 1) rest).attempts := h3 hne
        dsimp only
        simp only [List.length_cons]
        refine ⟨by omega, by omega, fun _ => by omega, ?_⟩
        rw [h4]
        have hk : (fetchFrom (a + 1) rest).attempts - 1 - a =
            ((fetchFrom (a + 1) rest).attempts - 1 - (a + 1)) + 1 := by omega
        rw [hk, List.range'_succ, List.map_cons]

/-! ## NPI scan lemmas -/

theorem npiScan_of_none (l : List Identifier)
    (h : ∀ i ∈ l, identifierHasNPI i = false) : npiScan l = "0" := by
  induction l with
  | nil => rfl
  | cons i rest ih =>
    rw [npiScan]
    rw [h i (by simp)]
    simp only [Bool.false_eq_true, if_false]
    exact ih (fun j hj => h j (by simp [hj]))

theorem npiScan_first (pre post : List Identifier) (i : Identifier)
    (hpre : ∀ j ∈ pre, identifierHasNPI j = false)
    (hi : identifierHasNPI i = true) :
    npiScan (pre ++ i :: post) = i.value.getD "0" := by
  induction pre with
  | nil => simp [npiScan, hi]
  | cons j rest ih =>
    rw [List.cons_append, npiScan, hpre j (by simp)]
    simp only [Bool.false_eq_true, if_false]
    exact ih (fun k hk => hpre k (by simp [hk]))

/-! ## Orchestrator lemma -/

theorem mainLoop_foldl (pipeline : Payer → FS → FS × Option String)
    (payers : List Payer) (fs : FS) :
    mainLoop pipeline payers fs =
      payers.foldl (fun g q => (pipeline q g).1) fs := by
  induction payers generalizing fs with
  | nil => rfl
  | cons p rest ih => simp [mainLoop, ih]

/-! ## Behaviour under an all-failing Fetcher -/

theorem failInv_frame (st st' : SlurpState)
    (h1 : st'.practitioners = st.practitioners)
    (h2 : st'.p_to_pr_rows = st.p_to_pr_rows) (h : FailInv st) : FailInv st' := by
  obtain ⟨hemp, hrows⟩ := h
  refine ⟨h1.trans hemp, ?_⟩
  rw [h2]
  exact hrows

theorem processPractitioner_failInv (b i r : String) (st : SlurpState)
    (h : FailInv st) : FailInv (processPractitioner b i failEnv r st) := by
  obtain ⟨hemp, hrows⟩ := h
  by_cases hs : r ≠ "" ∧ strStartsWith r "Practitioner/"
  · have heq : processPractitioner b i failEnv r st =
        { st with
          p_to_pr_rows := st.p_to_pr_rows ++
            [⟨urljoin b ("PractitionerRole/" ++ i), urljoin b r, r, "0", "?", "", ""⟩],
          fetchLog := st.fetchLog ++ [⟨.pract, lastSeg r, urljoin b r⟩] } := by
      simp [processPractitioner, hs, hemp, dictLookup, failEnv,
        extract_npi_from_practitioner, extract_practitioner_name]
    rw [heq]
    refine ⟨hemp, ?_⟩
    intro row hrow
    rcases List.mem_append.mp hrow with hm | hm
    · exact hrows row hm
    · simp only [List.mem_singleton] at hm
      subst hm
      exact ⟨rfl, rfl, rfl⟩
  · have heq : processPractitioner b i failEnv r st = st := by
      simp [processPractitioner, hs]
    rw [heq]
    exact ⟨hemp, hrows⟩

theorem processRecord_failInv (b : String) (st : SlurpState)
    (pr : PractitionerRole) (h : FailInv st) :
    FailInv (processRecord b failEnv st pr) := by
  simp only [processRecord]
  apply failInv_frame _ _
    (processTelecoms_frame _ _ _ _).2.2.2.2.1 (processTelecoms_frame _ _ _ _).2.2.2.2.2.1
  apply failInv_frame _ _
    (processSpecialties_frame _ _ _ _).2.2.2.2.1 (processSpecialties_frame _ _ _ _).2.2.2.2.2.1
  apply failInv_frame _ _
    (processLocations_frame _ _ _ _ _).2.2.1 (processLocations_frame _ _ _ _ _).2.2.2.1
  apply processPractitioner_failInv
  apply failInv_frame _ _
    (handleOrgRef_frame _ _ _ _ _).2.2.1 (handleOrgRef_frame _ _ _ _ _).2.2.2.1
  apply failInv_frame _ _
    (processExtensions_frame _ _ _ _ _).2.2.1 (processExtensions_frame _ _ _ _ _).2.2.2.1
  exact h

theorem foldl_failInv (b : String) (prs : List PractitionerRole) :
    FailInv (prs.foldl (processRecord b failEnv) initState) := by
  suffices hgen : ∀ st : SlurpState, FailInv st →
      FailInv (prs.foldl (processRecord b failEnv) st) by
    refine hgen initState ⟨rfl, ?_⟩
    intro row hrow
    simp [initState] at hrow
  induction prs with
  | nil => exact fun st h => h
  | cons pr rest ih =>
    intro st h
    simp only [List.foldl_cons]
    exact ih _ (processRecord_failInv _ _ _ h)

/-- All attempts failing makes `fetch_fhir_resource` return the explicit
absent result. -/
theorem fetchFrom_result_none {α : Type} (l : List (Option α))
    (h : ∀ o ∈ l, o = none) : ∀ a : Nat, (fetchFrom a l).result = none := by
  induction l with
  | nil => intro a; rfl
  | cons o rest ih =>
    intro a
    have ho : o = none := h o (by simp)
    subst ho
    rw [fetchFrom]
    by_cases hrest : rest.isEmpty
    · simp [hrest]
    · simp only [hrest, Bool.false_eq_true, if_false]
      exact ih (fun x hx => h x (by simp [hx])) (a + 1)

/-! ## `process_payer` characterization -/

theorem process_payer_roles (pageEnv : String → Option Bundle)
    (env : EntityEnv) (payer : Payer) (tm : Bool) (tl fuel : Nat) (fs : FS) :
    (process_payer pageEnv env payer tm tl fuel fs).roles =
      (fetch_all_practitioner_roles pageEnv
        payer.payer_provider_directory_fhir_url tm tl fuel).1 := by
  simp only [process_payer]
  split <;> rfl

theorem process_payer_of_empty (pageEnv : String → Option Bundle)
    (env : EntityEnv) (payer : Payer) (tm : Bool) (tl fuel : Nat) (fs : FS)
    (h : (fetch_all_practitioner_roles pageEnv
      payer.payer_provider_directory_fhir_url tm tl fuel).1 = []) :
    (process_payer pageEnv env payer tm tl fuel fs).fs = fs ∧
    (process_payer pageEnv env payer tm tl fuel fs).state = initState := by
  simp only [process_payer, h]
  exact ⟨rfl, rfl⟩

theorem process_payer_of_nonempty (pageEnv : String → Option Bundle)
    (env : EntityEnv) (payer : Payer) (tm : Bool) (tl fuel : Nat) (fs : FS)
    (h : (fetch_all_practitioner_roles pageEnv
      payer.payer_provider_directory_fhir_url tm tl fuel).1 ≠ []) :
    (process_payer pageEnv env payer tm tl fuel fs).fs =
      writeOutputs (outputDir tm payer.payer_stub)
        (normalizeBase payer.payer_provider_directory_fhir_url)
        ((fetch_all_practitioner_roles pageEnv
            payer.payer_provider_directory_fhir_url tm tl fuel).1.foldl
          (processRecord (normalizeBase payer.payer_provider_directory_fhir_url) env)
          initState) fs ∧
    (process_payer pageEnv env payer tm tl fuel fs).state =
      (fetch_all_practitioner_roles pageEnv
          payer.payer_provider_directory_fhir_url tm tl fuel).1.foldl
        (processRecord (normalizeBase payer.payer_provider_directory_fhir_url) env)
        initState := by
  have hne : (fetch_all_practitioner_roles pageEnv
      payer.payer_provider_directory_fhir_url tm tl fuel).1.isEmpty = false := by
    cases hx : (fetch_all_practitioner_roles pageEnv
        payer.payer_provider_directory_fhir_url tm tl fuel).1 with
    | nil => exact absurd hx h
    | cons x xs => rfl
  simp only [process_payer, hne, Bool.false_eq_true, if_false]
  constructor <;> trivial

theorem process_payer_frame (pageEnv : String → Option Bundle)
    (env : EntityEnv) (payer : Payer) (tm : Bool) (tl fuel : Nat) (fs : FS)
    (p : String) (hp : p ∉ outputPaths (outputDir tm payer.payer_stub)) :
    (process_payer pageEnv env payer tm tl fuel fs).fs p = fs p := by
  by_cases h : (fetch_all_practitioner_roles pageEnv
      payer.payer_provider_directory_fhir_url tm tl fuel).1 = []
  · rw [(process_payer_of_empty pageEnv env payer tm tl fuel fs h).1]
  · rw [(process_payer_of_nonempty pageEnv env payer tm tl fuel fs h).1]
    exact writeOutputs_ne _ _ _ _ _ hp

/-- The output-table contents do not depend on the previous filesystem. -/
theorem writeOutputs_indep (dir base : String) (st : SlurpState)
    (fs fs2 : FS) (p : String) (hp : p ∈ outputPaths dir) :
    writeOutputs dir base st fs p = writeOutputs dir base st fs2 p := by
  simp only [outputPaths, List.mem_cons, List.mem_singleton,
    List.not_mem_nil, or_false] at hp
  rcases hp with hp | hp | hp | hp | hp | hp | hp <;> subst hp
  · rw [(writeOutputs_eval dir base st fs).1, (writeOutputs_eval dir base st fs2).1]
  · rw [(writeOutputs_eval dir base st fs).2.1,
      (writeOutputs_eval dir base st fs2).2.1]
  · rw [(writeOutputs_eval dir base st fs).2.2.1,
      (writeOutputs_eval dir base st fs2).2.2.1]
  · rw [(writeOutputs_eval dir base st fs).2.2.2.1,
      (writeOutputs_eval dir base st fs2).2.2.2.1]
  · rw [(writeOutputs_eval dir base st fs).2.2.2.2.1,
      (writeOutputs_eval dir base st fs2).2.2.2.2.1]
  · rw [(writeOutputs_eval dir base st fs).2.2.2.2.2.1,
      (writeOutputs_eval dir base st fs2).2.2.2.2.2.1]
  · rw [(writeOutputs_eval dir base st fs).2.2.2.2.2.2,
      (writeOutputs_eval dir base st fs2).2.2.2.2.2.2]

/-! ## Claim theorems -/

/-- C9: `extract_npi_from_practitioner` scans the identifier list and
returns the value of the (first) identifier whose type coding has code
`"NPI"`; when no identifier has an NPI coding, or the practitioner data is
absent, it returns the sentinel `"0"`. -/
theorem c9_npi_extraction :
    extract_npi_from_practitioner none = "0" ∧
    (∀ p : Practitioner, (∀ i ∈ p.identifier, identifierHasNPI i = false) →
      extract_npi_from_practitioner (some p) = "0") ∧
    (∀ (p : Practitioner) (pre post : List Identifier) (i : Identifier)
      (v : String),
      p.identifier = pre ++ i :: post →
      (∀ j ∈ pre, identifierHasNPI j = false) →
      identifierHasNPI i = true →
      i.value = some v →
      extract_npi_from_practitioner (some p) = v) := by
  refine ⟨rfl, ?_, ?_⟩
  · intro p h
    exact npiScan_of_none p.identifier h
  · intro p pre post i v hpl hpre hi hv
    simp only [extract_npi_from_practitioner, hpl]
    rw [npiScan_first pre post i hpre hi, hv]
    rfl

/-- C9 witness: an identifier list with an NPI coding and value
`"1234567890"` extracts `"1234567890"`; one with only a non-NPI coding
extracts `"0"`. -/
theorem c9_npi_extraction_witness :
    extract_npi_from_practitioner
        (some ⟨[⟨some ⟨[⟨some "NPI", none, none⟩]⟩, some "1234567890"⟩], []⟩) =
      "1234567890" ∧
    extract_npi_from_practitioner
        (some ⟨[⟨some ⟨[⟨some "DL", none, none⟩]⟩, some "999"⟩], []⟩) = "0" :=
  ⟨c9_npi_extraction.2.2 _ [] [] _ "1234567890" rfl (by simp) (by decide) rfl,
    c9_npi_extraction.2.1 _ (by decide)⟩

/-- C5: `fetch_fhir_resource` makes at most `max_retries` attempts
(`outcomes` lists the per-attempt results, so `outcomes.length` is
`max_retries`, 3 by default); the backoff sleeps between consecutive
attempts are exactly `2 ^ attempt` seconds for the 0-indexed attempts
before the last one performed, with no jitter; and the fail-fail-succeed
scenario with the default `max_retries = 3` yields one success after
exactly the two delays `[1, 2]`. -/
theorem c5_retry_backoff :
    (∀ (α : Type) (outcomes : List (Option α)),
      (fetch_fhir_resource outcomes).attempts ≤ outcomes.length ∧
      (fetch_fhir_resource outcomes).sleeps =
        (List.range ((fetch_fhir_resource outcomes).attempts - 1)).map (2 ^ ·)) ∧
    (∀ (α : Type) (r : α),
      fetch_fhir_resource [none, none, some r] =
        ⟨some r, [1, 2], 3⟩) := by
  constructor
  · intro α outcomes
    obtain ⟨h1, h2, h3, h4⟩ := fetchFrom_spec outcomes 0
    constructor
    · simpa [fetch_fhir_resource] using h2
    · rw [List.range_eq_range']
      simpa [fetch_fhir_resource] using h4
  · intro α r
    rfl

/-- C10: when the crawl yields zero PrimaryRecords, `process_payer`
returns before opening any output file, leaving the whole filesystem —
in particular every previously written CSV in the payer's output
directory — unchanged. -/
theorem c10_empty_crawl_frame (pageEnv : String → Option Bundle)
    (env : EntityEnv) (payer : Payer) (tm : Bool) (tl fuel : Nat) (fs : FS)
    (h : (fetch_all_practitioner_roles pageEnv
      payer.payer_provider_directory_fhir_url tm tl fuel).1 = []) :
    (process_payer pageEnv env payer tm tl fuel fs).fs = fs :=
  (process_payer_of_empty pageEnv env payer tm tl fuel fs h).1

/-- C10 witness: against an upstream whose first page fetch is absent, a
filesystem full of stale files is left untouched. -/
theorem c10_empty_crawl_frame_witness :
    (fetch_all_practitioner_roles emptyPageEnv
      exPayer.payer_provider_directory_fhir_url false 100 5).1 = [] ∧
    (process_payer emptyPageEnv exEnv exPayer false 100 5 oldFS).fs = oldFS :=
  ⟨rfl, c10_empty_crawl_frame emptyPageEnv exEnv exPayer false 100 5 oldFS rfl⟩

/-- C7 (amended: for a cap `L ≥ 1`): in test mode the paginator never
accumulates beyond `L` records, and every page request is issued at a
moment when the accumulated count is still below `L` — so no page is ever
fetched once the cap is reached. -/
theorem c7_test_cap (pageEnv : String → Option Bundle) (base : String)
    (tl fuel : Nat) (h : 1 ≤ tl) :
    (fetch_all_practitioner_roles pageEnv base true tl fuel).1.length ≤ tl ∧
    ∀ p ∈ (fetch_all_practitioner_roles pageEnv base true tl fuel).2,
      p.2 < tl := by
  have hmain := fetchPagesLoop_cap pageEnv tl fuel
    (some (urljoin (normalizeBase base) "PractitionerRole?_count=100")) [] []
    (by simpa using h) (by simp)
  simpa [fetch_all_practitioner_roles] using hmain

/-- C7 counterexample: with cap `L = 0` the cap is already reached before
anything is accumulated, yet the paginator still issues a page request
(logged with running count `0`, not `< 0`) and still accumulates one
record, so the claim's "stops accumulating once the running count reaches
L" and "issues no further page requests once the cap is reached" both
fail at `L = 0`. -/
theorem c7_counterexample :
    (fetch_all_practitioner_roles exPageEnv "b" true 0 5).1.length = 1 ∧
    (fetch_all_practitioner_roles exPageEnv "b" true 0 5).2 =
      [("b/PractitionerRole?_count=100", 0)] :=
  ⟨rfl, rfl⟩

/-- C7 witness: cap `1` against a two-record page: exactly one record is
kept and the single page request was issued at count `0 < 1`. -/
theorem c7_test_cap_witness :
    1 ≤ 1 ∧
    ((fetch_all_practitioner_roles exPageEnv2 "b" true 1 5).1.length ≤ 1 ∧
      ∀ p ∈ (fetch_all_practitioner_roles exPageEnv2 "b" true 1 5).2,
        p.2 < 1) :=
  ⟨Nat.le_refl 1, c7_test_cap exPageEnv2 "b" 1 5 (Nat.le_refl 1)⟩

/-- C1 (amended): running the pipeline twice against an unchanged upstream
source is idempotent (the second run reproduces the first run's
filesystem exactly), and on any run that crawled at least one
PrimaryRecord the contents of the seven output tables are independent of
what was previously on disk — every write truncates and replaces, never
merges.  (A crawl of zero PrimaryRecords returns early without writing,
so those runs leave previous output untouched; see the counterexample.) -/
theorem c1_overwrite_semantics (pageEnv : String → Option Bundle)
    (env : EntityEnv) (payer : Payer) (tm : Bool) (tl fuel : Nat) (fs : FS) :
    (process_payer pageEnv env payer tm tl fuel
        ((process_payer pageEnv env payer tm tl fuel fs).fs)).fs =
      (process_payer pageEnv env payer tm tl fuel fs).fs ∧
    ((process_payer pageEnv env payer tm tl fuel fs).roles ≠ [] →
      ∀ (fs2 : FS) (p : String),
        p ∈ outputPaths (outputDir tm payer.payer_stub) →
        (process_payer pageEnv env payer tm tl fuel fs).fs p =
          (process_payer pageEnv env payer tm tl fuel fs2).fs p) := by
  by_cases h : (fetch_all_practitioner_roles pageEnv
      payer.payer_provider_directory_fhir_url tm tl fuel).1 = []
  · constructor
    · exact (process_payer_of_empty pageEnv env payer tm tl fuel
        ((process_payer pageEnv env payer tm tl fuel fs).fs) h).1
    · intro hroles
      rw [process_payer_roles] at hroles
      exact absurd h hroles
  · constructor
    · rw [(process_payer_of_nonempty pageEnv env payer tm tl fuel
          ((process_payer pageEnv env payer tm tl fuel fs).fs) h).1,
        (process_payer_of_nonempty pageEnv env payer tm tl fuel fs h).1,
        writeOutputs_idem]
    · intro hroles fs2 p hp
      rw [(process_payer_of_nonempty pageEnv env payer tm tl fuel fs h).1,
        (process_payer_of_nonempty pageEnv env payer tm tl fuel fs2 h).1]
      exact writeOutputs_indep _ _ _ _ _ p hp

/-- C1 counterexample: after a run that wrote a relationship row,
re-running against an upstream shrunk to zero PrimaryRecords (its page
fetch is absent) leaves the old table on disk: the output still contains
the row from the earlier, larger dataset, refuting the claim's
"including one shrunk to zero PrimaryRecords" parenthetical. -/
theorem c1_counterexample :
    (fetch_all_practitioner_roles emptyPageEnv "b" false 100 5).1 = [] ∧
    (process_payer emptyPageEnv exEnv exPayer false 100 5
        ((process_payer exPageEnv exEnv exPayer false 100 5 emptyFS).fs)).fs
      "payer_slurp_results/s/org_to_pr.csv" =
      some [["practitioner_role_fhir_url", "organization_fhir_url",
        "organization_reference"],
        ["b/PractitionerRole/r1", "b/Organization/A", "Organization/A"]] :=
  ⟨rfl, rfl⟩

/-- C1 witness: on a one-record upstream, the `org_to_pr` table written
from a clean filesystem and from a filesystem full of stale files agree. -/
theorem c1_overwrite_semantics_witness :
    (process_payer exPageEnv exEnv exPayer false 100 5 emptyFS).roles ≠ [] ∧
    (process_payer exPageEnv exEnv exPayer false 100 5 emptyFS).fs
        (outputDir false exPayer.payer_stub ++ "/org_to_pr.csv") =
      (process_payer exPageEnv exEnv exPayer false 100 5 oldFS).fs
        (outputDir false exPayer.payer_stub ++ "/org_to_pr.csv") :=
  ⟨by decide,
    (c1_overwrite_semantics exPageEnv exEnv exPayer false 100 5 emptyFS).2
      (by decide) oldFS _ (by decide)⟩

/-- C4 (amended): on every run that crawled at least one PrimaryRecord the
writer overwrites exactly SEVEN output tables — `org_to_pr`, `org`,
`location_to_pr`, `location`, `p_to_pr`, `spec_to_pr`, `tele_to_pr` —
each replaced by its declared header followed by its data rows when it
has rows, and truncated to an empty, headerless file when it has none. -/
theorem c4_writer_tables (pageEnv : String → Option Bundle)
    (env : EntityEnv) (payer : Payer) (tm : Bool) (tl fuel : Nat) (fs : FS)
    (h : (process_payer pageEnv env payer tm tl fuel fs).roles ≠ []) :
    (process_payer pageEnv env payer tm tl fuel fs).fs
        (outputDir tm payer.payer_stub ++ "/org_to_pr.csv") =
      some (mkTable orgToPrHeader
        ((process_payer pageEnv env payer tm tl fuel fs).state.org_to_pr_rows.map
          OrgToPrRow.toRow)) ∧
    (process_payer pageEnv env payer tm tl fuel fs).fs
        (outputDir tm payer.payer_stub ++ "/org.csv") =
      some (mkTable orgHeader
        (orgRows (normalizeBase payer.payer_provider_directory_fhir_url)
          (process_payer pageEnv env payer tm tl fuel fs).state.organizations)) ∧
    (process_payer pageEnv env payer tm tl fuel fs).fs
        (outputDir tm payer.payer_stub ++ "/location_to_pr.csv") =
      some (mkTable locToPrHeader
        ((process_payer pageEnv env payer tm tl fuel fs).state.location_to_pr_rows.map
          LocToPrRow.toRow)) ∧
    (process_payer pageEnv env payer tm tl fuel fs).fs
        (outputDir tm payer.payer_stub ++ "/location.csv") =
      some (mkTable locHeader
        (locationRows (normalizeBase payer.payer_provider_directory_fhir_url)
          (process_payer pageEnv env payer tm tl fuel fs).state.locations)) ∧
    (process_payer pageEnv env payer tm tl fuel fs).fs
        (outputDir tm payer.payer_stub ++ "/p_to_pr.csv") =
      some (mkTable pToPrHeader
        ((process_payer pageEnv env payer tm tl fuel fs).state.p_to_pr_rows.map
          PToPrRow.toRow)) ∧
    (process_payer pageEnv env payer tm tl fuel fs).fs
        (outputDir tm payer.payer_stub ++ "/spec_to_pr.csv") =
      some (mkTable specHeader
        ((process_payer pageEnv env payer tm tl fuel fs).state.spec_to_pr_rows.map
          SpecToPrRow.toRow)) ∧
    (process_payer pageEnv env payer tm tl fuel fs).fs
        (outputDir tm payer.payer_stub ++ "/tele_to_pr.csv") =
      some (mkTable teleHeader
        ((process_payer pageEnv env payer tm tl fuel fs).state.tele_to_pr_rows.map
          TeleToPrRow.toRow)) := by
  have hcrawl : (fetch_all_practitioner_roles pageEnv
      payer.payer_provider_directory_fhir_url tm tl fuel).1 ≠ [] := by
    rw [process_payer_roles] at h
    exact h
  obtain ⟨hfs, hst⟩ :=
    process_payer_of_nonempty pageEnv env payer tm tl fuel fs hcrawl
  rw [hfs, hst]
  exact writeOutputs_eval _ _ _ _

/-- C4 counterexample: a run with one record writes seven files, not six,
and the `spec_to_pr` table — which has no rows for this record — is
overwritten as an empty file with no header row, refuting "exactly six
output tables, each with a header row ... including runs where a table
has zero data rows". -/
theorem c4_counterexample :
    ((outputPaths (outputDir false exPayer.payer_stub)).length = 7 ∧
      (outputPaths (outputDir false exPayer.payer_stub)).Nodup) ∧
    (∀ p ∈ outputPaths (outputDir false exPayer.payer_stub),
      ((process_payer exPageEnv exEnv exPayer false 100 5 emptyFS).fs p).isSome) ∧
    (process_payer exPageEnv exEnv exPayer false 100 5 emptyFS).fs
      "payer_slurp_results/s/spec_to_pr.csv" = some [] :=
  ⟨⟨rfl, by decide⟩, by decide, rfl⟩

/-- C4 witness: the one-record run's `org_to_pr` file holds exactly its
header and rows. -/
theorem c4_writer_tables_witness :
    (process_payer exPageEnv exEnv exPayer false 100 5 emptyFS).roles ≠ [] ∧
    (process_payer exPageEnv exEnv exPayer false 100 5 emptyFS).fs
        (outputDir false exPayer.payer_stub ++ "/org_to_pr.csv") =
      some (mkTable orgToPrHeader
        ((process_payer exPageEnv exEnv exPayer false 100 5
          emptyFS).state.org_to_pr_rows.map OrgToPrRow.toRow)) :=
  ⟨by decide,
    (c4_writer_tables exPageEnv exEnv exPayer false 100 5 emptyFS (by decide)).1⟩

/-- C2 (amended: for ids whose entity fetches succeed — so for every
referenced id when the fetcher always succeeds): the organization and
location caches hold exactly one entry per distinct id appearing in the
reference column of the corresponding relationship table (no duplicates,
no referenced id missing), and the `org`/`location` tables are written
with exactly one row per cache entry. -/
theorem c2_unique_rows (pageEnv : String → Option Bundle) (env : EntityEnv)
    (payer : Payer) (tm : Bool) (tl fuel : Nat) (fs : FS)
    (hOrg : ∀ u, (env.org u).isSome) (hLoc : ∀ u, (env.loc u).isSome) :
    (((process_payer pageEnv env payer tm tl fuel fs).state.organizations.map
        Prod.fst).Nodup ∧
      ∀ id, (dictLookup id
          (process_payer pageEnv env payer tm tl fuel fs).state.organizations).isSome ↔
        id ∈ orgRefIds
          (process_payer pageEnv env payer tm tl fuel fs).state.org_to_pr_rows) ∧
    (((process_payer pageEnv env payer tm tl fuel fs).state.locations.map
        Prod.fst).Nodup ∧
      ∀ id, (dictLookup id
          (process_payer pageEnv env payer tm tl fuel fs).state.locations).isSome ↔
        id ∈ locRefIds
          (process_payer pageEnv env payer tm tl fuel fs).state.location_to_pr_rows) ∧
    ((process_payer pageEnv env payer tm tl fuel fs).roles ≠ [] →
      (process_payer pageEnv env payer tm tl fuel fs).fs
          (outputDir tm payer.payer_stub ++ "/org.csv") =
        some (mkTable orgHeader
          (orgRows (normalizeBase payer.payer_provider_directory_fhir_url)
            (process_payer pageEnv env payer tm tl fuel fs).state.organizations)) ∧
      (process_payer pageEnv env payer tm tl fuel fs).fs
          (outputDir tm payer.payer_stub ++ "/location.csv") =
        some (mkTable locHeader
          (locationRows (normalizeBase payer.payer_provider_directory_fhir_url)
            (process_payer pageEnv env payer tm tl fuel fs).state.locations))) := by
  by_cases h : (fetch_all_practitioner_roles pageEnv
      payer.payer_provider_directory_fhir_url tm tl fuel).1 = []
  · obtain ⟨hfs, hst⟩ := process_payer_of_empty pageEnv env payer tm tl fuel fs h
    rw [hst]
    refine ⟨⟨initState_invariants.1.1, initState_invariants.1.2.1⟩,
      ⟨initState_invariants.2.1.1, initState_invariants.2.1.2.1⟩, ?_⟩
    intro hroles
    rw [process_payer_roles] at hroles
    exact absurd h hroles
  · obtain ⟨hfs, hst⟩ := process_payer_of_nonempty pageEnv env payer tm tl fuel fs h
    rw [hst, hfs]
    have hio := foldl_InvOrg
      (normalizeBase payer.payer_provider_directory_fhir_url) env
      (fetch_all_practitioner_roles pageEnv
        payer.payer_provider_directory_fhir_url tm tl fuel).1 hOrg
    have hil := foldl_InvLoc
      (normalizeBase payer.payer_provider_directory_fhir_url) env
      (fetch_all_practitioner_roles pageEnv
        payer.payer_provider_directory_fhir_url tm tl fuel).1 hLoc
    refine ⟨⟨hio.1, hio.2.1⟩, ⟨hil.1, hil.2.1⟩, ?_⟩
    intro _
    exact ⟨(writeOutputs_eval _ _ _ _).2.1, (writeOutputs_eval _ _ _ _).2.2.2.1⟩

/-- C2 counterexample: with a fetcher that always fails, the `org_to_pr`
table references id `A` but the organization cache (and hence the `org`
table, written headerless and rowless) contains no row for it: a
referenced id is missing from the entity table, refuting the claim for
runs with failing fetches. -/
theorem c2_counterexample :
    orgRefIds
        (process_payer exPageEnv failEnv exPayer false 100 5
          emptyFS).state.org_to_pr_rows = ["A"] ∧
    (process_payer exPageEnv failEnv exPayer false 100 5
        emptyFS).state.organizations = [] ∧
    (process_payer exPageEnv failEnv exPayer false 100 5 emptyFS).fs
      "payer_slurp_results/s/org.csv" = some [] :=
  ⟨rfl, rfl, rfl⟩

/-- C2 witness: with the always-succeeding environment, id `A` referenced
by the run is cached exactly once and the cache keys are duplicate-free. -/
theorem c2_unique_rows_witness :
    (∀ u, (exEnv.org u).isSome) ∧
    ((process_payer exPageEnv exEnv exPayer false 100 5
        emptyFS).state.organizations.map Prod.fst).Nodup ∧
    (dictLookup "A"
      (process_payer exPageEnv exEnv exPayer false 100 5
        emptyFS).state.organizations).isSome :=
  ⟨fun _ => rfl,
    (c2_unique_rows exPageEnv exEnv exPayer false 100 5 emptyFS
      (fun _ => rfl) (fun _ => rfl)).1.1,
    ((c2_unique_rows exPageEnv exEnv exPayer false 100 5 emptyFS
      (fun _ => rfl) (fun _ => rfl)).1.2 "A").mpr (by decide)⟩

/-- C3 (amended): the caches store a result only on success (for any
environment, every cached value is a value some fetch returned), and when
every entity fetch succeeds the Fetcher is invoked at most once per id
and exactly once for every id referenced by at least one PrimaryRecord;
a failing fetch is not cached, so a persistently failing id is re-fetched
once per referencing occurrence (see the counterexample). -/
theorem c3_fetch_once (pageEnv : String → Option Bundle) (env : EntityEnv)
    (payer : Payer) (tm : Bool) (tl fuel : Nat) (fs : FS) :
    CachedOnSuccess env (process_payer pageEnv env payer tm tl fuel fs).state ∧
    ((∀ u, (env.org u).isSome) → (∀ u, (env.loc u).isSome) →
      (∀ u, (env.pract u).isSome) →
      (∀ id, countCalls EntityKind.org id
        (process_payer pageEnv env payer tm tl fuel fs).state.fetchLog ≤ 1) ∧
      (∀ id, id ∈ orgRefIds
          (process_payer pageEnv env payer tm tl fuel fs).state.org_to_pr_rows →
        countCalls EntityKind.org id
          (process_payer pageEnv env payer tm tl fuel fs).state.fetchLog = 1) ∧
      (∀ id, countCalls EntityKind.loc id
        (process_payer pageEnv env payer tm tl fuel fs).state.fetchLog ≤ 1) ∧
      (∀ id, id ∈ locRefIds
          (process_payer pageEnv env payer tm tl fuel fs).state.location_to_pr_rows →
        countCalls EntityKind.loc id
          (process_payer pageEnv env payer tm tl fuel fs).state.fetchLog = 1) ∧
      (∀ id, countCalls EntityKind.pract id
        (process_payer pageEnv env payer tm tl fuel fs).state.fetchLog ≤ 1) ∧
      (∀ id, id ∈ practRefIds
          (process_payer pageEnv env payer tm tl fuel fs).state.p_to_pr_rows →
        countCalls EntityKind.pract id
          (process_payer pageEnv env payer tm tl fuel fs).state.fetchLog = 1)) := by
  by_cases h : (fetch_all_practitioner_roles pageEnv
      payer.payer_provider_directory_fhir_url tm tl fuel).1 = []
  · obtain ⟨hfs, hst⟩ := process_payer_of_empty pageEnv env payer tm tl fuel fs h
    rw [hst]
    constructor
    · exact ⟨by simp [initState], by simp [initState], by simp [initState]⟩
    · intro _ _ _
      refine ⟨?_, ?_, ?_, ?_, ?_, ?_⟩ <;>
        simp [initState, countCalls, orgRefIds, locRefIds, practRefIds]
  · obtain ⟨hfs, hst⟩ := process_payer_of_nonempty pageEnv env payer tm tl fuel fs h
    rw [hst]
    constructor
    · exact foldl_cached _ _ _
    · intro hOrg hLoc hPract
      have hio := foldl_InvOrg
        (normalizeBase payer.payer_provider_directory_fhir_url) env
        (fetch_all_practitioner_roles pageEnv
          payer.payer_provider_directory_fhir_url tm tl fuel).1 hOrg
      have hil := foldl_InvLoc
        (normalizeBase payer.payer_provider_directory_fhir_url) env
        (fetch_all_practitioner_roles pageEnv
          payer.payer_provider_directory_fhir_url tm tl fuel).1 hLoc
      have hip := foldl_InvPract
        (normalizeBase payer.payer_provider_directory_fhir_url) env
        (fetch_all_practitioner_roles pageEnv
          payer.payer_provider_directory_fhir_url tm tl fuel).1 hPract
      refine ⟨?_, ?_, ?_, ?_, ?_, ?_⟩
      · intro id
        rw [hio.2.2 id]
        split_ifs <;> omega
      · intro id hm
        rw [hio.2.2 id, if_pos ((hio.2.1 id).mpr hm)]
      · intro id
        rw [hil.2.2 id]
        split_ifs <;> omega
      · intro id hm
        rw [hil.2.2 id, if_pos ((hil.2.1 id).mpr hm)]
      · intro id
        rw [hip.2.2 id]
        split_ifs <;> omega
      · intro id hm
        rw [hip.2.2 id, if_pos ((hip.2.1 id).mpr hm)]

/-- C3 counterexample: two PrimaryRecords reference organization id `A`;
with a persistently failing fetcher nothing is cached and the Fetcher is
invoked twice for `A` — not exactly once as the claim states for
`N ≥ 1` referencing records. -/
theorem c3_counterexample :
    (orgRefIds (process_payer exPageEnv2 failEnv exPayer false 100 5
      emptyFS).state.org_to_pr_rows).count "A" = 2 ∧
    (process_payer exPageEnv2 failEnv exPayer false 100 5
      emptyFS).state.organizations = [] ∧
    countCalls EntityKind.org "A"
      (process_payer exPageEnv2 failEnv exPayer false 100 5
        emptyFS).state.fetchLog = 2 :=
  ⟨rfl, rfl, rfl⟩

/-- C3 witness: with the always-succeeding environment and two records
referencing organization id `A`, the Fetcher is invoked exactly once for
`A`. -/
theorem c3_fetch_once_witness :
    (∀ u, (exEnv.org u).isSome) ∧
    countCalls EntityKind.org "A"
      (process_payer exPageEnv2 exEnv exPayer false 100 5
        emptyFS).state.fetchLog = 1 :=
  ⟨fun _ => rfl,
    ((c3_fetch_once exPageEnv2 exEnv exPayer false 100 5 emptyFS).2
      (fun _ => rfl) (fun _ => rfl) (fun _ => rfl)).2.1 "A" (by decide)⟩

/-- C6: when every attempt fails, `fetch_fhir_resource` returns the
explicit absent result (`None`) instead of raising; and a payer run whose
entity fetches all come back absent still completes: all seven tables are
written and every practitioner row degrades to the sentinel NPI `"0"` and
empty names. -/
theorem c6_exhaustion_unavailable :
    (∀ (α : Type) (outcomes : List (Option α)),
      (∀ o ∈ outcomes, o = none) →
      (fetch_fhir_resource outcomes).result = none) ∧
    (∀ (pageEnv : String → Option Bundle) (payer : Payer) (tm : Bool)
      (tl fuel : Nat) (fs : FS),
      (process_payer pageEnv failEnv payer tm tl fuel fs).roles ≠ [] →
      (∀ p ∈ outputPaths (outputDir tm payer.payer_stub),
        ((process_payer pageEnv failEnv payer tm tl fuel fs).fs p).isSome) ∧
      ∀ row ∈ (process_payer pageEnv failEnv payer tm tl
          fuel fs).state.p_to_pr_rows,
        row.npi = "0" ∧ row.family_name = "" ∧ row.given_name = "") := by
  constructor
  · intro α outcomes h
    exact fetchFrom_result_none outcomes h 0
  · intro pageEnv payer tm tl fuel fs h
    have hcrawl : (fetch_all_practitioner_roles pageEnv
        payer.payer_provider_directory_fhir_url tm tl fuel).1 ≠ [] := by
      rw [process_payer_roles] at h
      exact h
    obtain ⟨hfs, hst⟩ :=
      process_payer_of_nonempty pageEnv failEnv payer tm tl fuel fs hcrawl
    constructor
    · intro p hp
      rw [hfs]
      simp only [outputPaths, List.mem_cons, List.mem_singleton,
        List.not_mem_nil, or_false] at hp
      rcases hp with hp | hp | hp | hp | hp | hp | hp <;> subst hp
      · rw [(writeOutputs_eval _ _ _ _).1]; rfl
      · rw [(writeOutputs_eval _ _ _ _).2.1]; rfl
      · rw [(writeOutputs_eval _ _ _ _).2.2.1]; rfl
      · rw [(writeOutputs_eval _ _ _ _).2.2.2.1]; rfl
      · rw [(writeOutputs_eval _ _ _ _).2.2.2.2.1]; rfl
      · rw [(writeOutputs_eval _ _ _ _).2.2.2.2.2.1]; rfl
      · rw [(writeOutputs_eval _ _ _ _).2.2.2.2.2.2]; rfl
    · rw [hst]
      exact (foldl_failInv _ _).2

/-- C6 witness: three failed attempts return `none`, and the all-absent
run still writes the `p_to_pr` table. -/
theorem c6_exhaustion_unavailable_witness :
    (fetch_fhir_resource ([none, none, none] : List (Option Org))).result =
      none ∧
    ((process_payer exPageEnv failEnv exPayer false 100 5 emptyFS).fs
      (outputDir false exPayer.payer_stub ++ "/p_to_pr.csv")).isSome :=
  ⟨c6_exhaustion_unavailable.1 Org [none, none, none] (by decide),
    (c6_exhaustion_unavailable.2 exPageEnv exPayer false 100 5 emptyFS
      (by decide)).1 _ (by decide)⟩

/-- C8: the orchestrator catches a per-payer failure and continues — the
loop's result is the fold over ALL payers whatever the per-payer error
outputs are; if payer B's pipeline raises after A ran, any path outside
B's and C's write sets still holds exactly what payer A's run left there;
and the concrete `process_payer` pipeline touches no path outside its own
payer's output directory. -/
theorem c8_failure_isolation :
    (∀ (pipeline : Payer → FS → FS × Option String) (payers : List Payer)
      (fs : FS),
      mainLoop pipeline payers fs =
        payers.foldl (fun g q => (pipeline q g).1) fs) ∧
    (∀ (pipeline : Payer → FS → FS × Option String) (pA pB pC : Payer)
      (fs : FS) (sB sC : List String) (p : String) (eB : String),
      (pipeline pB ((pipeline pA fs).1)).2 = some eB →
      (∀ (g : FS) (q : String), q ∉ sB → ((pipeline pB g).1) q = g q) →
      (∀ (g : FS) (q : String), q ∉ sC → ((pipeline pC g).1) q = g q) →
      p ∉ sB → p ∉ sC →
      mainLoop pipeline [pA, pB, pC] fs p = ((pipeline pA fs).1) p) ∧
    (∀ (pageEnv : String → Option Bundle) (env : EntityEnv) (payer : Payer)
      (tm : Bool) (tl fuel : Nat) (fs : FS) (p : String),
      (process_payer pageEnv env payer tm tl fuel fs).fs p ≠ fs p →
      p ∈ outputPaths (outputDir tm payer.payer_stub)) := by
  refine ⟨mainLoop_foldl, ?_, ?_⟩
  · intro pipeline pA pB pC fs sB sC p eB hB hfB hfC hpB hpC
    simp only [mainLoop]
    rw [hfC _ _ hpC, hfB _ _ hpB]
  · intro pageEnv env payer tm tl fuel fs p h
    by_contra hp
    exact h (process_payer_frame pageEnv env payer tm tl fuel fs p hp)

/-- C8 witness: payer B's pipeline raises, yet after the three-payer loop
payer A's marker file is exactly what A's own run wrote. -/
theorem c8_failure_isolation_witness :
    (exPipeline exPayerB ((exPipeline exPayerA emptyFS).1)).2 = some "boom" ∧
    mainLoop exPipeline [exPayerA, exPayerB, exPayerC] emptyFS
        "payer_slurp_results/A/org.csv" =
      ((exPipeline exPayerA emptyFS).1) "payer_slurp_results/A/org.csv" := by
  constructor
  · rfl
  · apply c8_failure_isolation.2.1 exPipeline exPayerA exPayerB exPayerC
      emptyFS ["payer_slurp_results/B/org.csv"] ["payer_slurp_results/C/org.csv"]
      "payer_slurp_results/A/org.csv" "boom" rfl
    · intro g q hq
      by_cases hc : q = "payer_slurp_results/" ++ exPayerB.payer_stub ++ "/org.csv"
      · subst hc
        exact absurd (by decide) hq
      · simp only [exPipeline]
        rw [if_neg hc]
    · intro g q hq
      by_cases hc : q = "payer_slurp_results/" ++ exPayerC.payer_stub ++ "/org.csv"
      · subst hc
        exact absurd (by decide) hq
      · simp only [exPipeline]
        rw [if_neg hc]
    · decide
    · decide

end PlanScrape
